import Mathlib

/-!
# HakoGame: the memory-game controller of `STM Code.c`

A shallow embedding of the game logic of the controller: the linear
congruential generator, pattern generation, pattern playback, the wait for
the first press with its replay path, input judging, the difficulty update
of a successful round, the restart of a game from `main`, and the tick
counter with `delay_ms`.

Conventions of the embedding.

* C `int` variables are `Int`; the `uint32_t` variable `rng_seed` is a
  `Nat` reduced modulo `2 ^ 32` at every operation that can wrap.  Signed
  overflow of the counters is not modelled: it would take `2 ^ 31` rounds.
* `int gamepattern[20]` is a function `Fin 20 → Int`; an access at an
  index outside `0..19`, like a division by zero, is undefined behaviour
  and makes the operation return `Exec.fault`.
* The environment is an input: the value of `millis()` read by
  `generate_game`, the samples of the pins and of the replay interrupt seen
  by the wait loop, and the presses registered by the judging loop.  A loop
  that still polls when its record of inputs ends returns `Exec.blocked`.
* Calls of the output primitives (`play_note`, `delay_ms`, the three
  jingles) are recorded in order as a list of `Event`.
* A counted `for` loop is a recursion on the number of iterations left,
  started at `length.toNat` with counter 0.
-/

namespace HakoGame

/-! ## Data model -/

/-- The game configuration globals `LENGTH` and `MIN_LENGTH` (lines 35-36). -/
structure Config where
  LENGTH : Int
  MIN_LENGTH : Int
deriving DecidableEq, Repr

/-- The configuration as shipped: `LENGTH = 100`, `MIN_LENGTH = 50`. -/
def shipped : Config := ⟨100, 50⟩

/-- The mutable state: the globals `gamepattern`, `patternLength`,
`replay_requested`, `rng_seed` and the locals `roundCount`, `userInput`,
`gameSpeed` of `play_game`.  The clock `sysTickMillis` is advanced by the
tick interrupt only; the values read from it are inputs. -/
structure Game where
  gamepattern : Fin 20 → Int
  patternLength : Int
  replay_requested : Bool
  rng_seed : Nat
  roundCount : Int
  userInput : Int
  gameSpeed : Int

/-- Calls of the output primitives made by `play_game`, in program order. -/
inductive Event
  | play_note (index : Int) (notespeed : Int)
  | delay_ms (ms : Nat)
  | play_level_up_note
  | play_win_note
  | game_over
deriving DecidableEq, Repr

/-- Result of running a piece of code on a finite record of inputs: a
value, undefined behaviour (`fault`), or still polling when the record of
inputs ends (`blocked`). -/
inductive Exec (α : Type)
  | ok (a : α)
  | fault
  | blocked
deriving DecidableEq, Repr

/-- Sequencing of `Exec` computations. -/
def Exec.bind {α β : Type} (x : Exec α) (f : α → Exec β) : Exec β :=
  match x with
  | .ok a => f a
  | .fault => .fault
  | .blocked => .blocked

instance : Monad Exec where
  pure := Exec.ok
  bind := Exec.bind

/-- Post-composition of an `Exec` computation with a function. -/
def Exec.map {α β : Type} (f : α → β) (x : Exec α) : Exec β :=
  match x with
  | .ok a => .ok (f a)
  | .fault => .fault
  | .blocked => .blocked

/-! ## Machine arithmetic -/

/-- Conversion of a C `int` to `uint32_t`: reduction modulo `2 ^ 32`. -/
def toUInt32 (x : Int) : Nat := (x % 4294967296).toNat

/-- Conversion of a `uint32_t` to `int` (two's complement). -/
def toInt32 (x : Nat) : Int :=
  if x % 4294967296 < 2147483648 then ((x % 4294967296 : Nat) : Int)
  else ((x % 4294967296 : Nat) : Int) - 4294967296

/-! ## Pattern generator (lines 209-225) -/

/-- The update of line 215, `rng_seed * 1103515245 + 12345` in `uint32_t`. -/
def lcg (s : Nat) : Nat := (s * 1103515245 + 12345) % 4294967296

/-- The setter `seed_random` (lines 210-212). -/
def seed_random (seed : Nat) (g : Game) : Game := { g with rng_seed := seed }

/-- The function `random_range` (lines 214-217).  The seed is advanced
first; `max - min` is converted to `uint32_t` for the remainder, the sum
is formed in `uint32_t` and converted back to `int` on return.  A signed
overflow of `max - min` or a zero divisor is undefined behaviour. -/
def random_range (min max : Int) (g : Game) : Exec (Int × Game) :=
  let seed := lcg g.rng_seed
  if max - min < -2147483648 ∨ 2147483647 < max - min then .fault
  else if toUInt32 (max - min) = 0 then .fault
  else
    .ok (toInt32 ((toUInt32 min + seed % toUInt32 (max - min)) % 4294967296),
         { g with rng_seed := seed })

/-- The assignment `gamepattern[i] = v`; out of bounds for `i ≥ 20`. -/
def store (i : Nat) (v : Int) (g : Game) : Exec Game :=
  if h : i < 20 then
    .ok { g with gamepattern := fun k => if k = ⟨i, h⟩ then v else g.gamepattern k }
  else .fault

/-- The read `gamepattern[i]`; out of bounds for `i ≥ 20`. -/
def load (g : Game) (i : Nat) : Exec Int :=
  if h : i < 20 then .ok (g.gamepattern ⟨i, h⟩) else .fault

/-- The loop of lines 222-224 with `n` iterations left and counter `i`. -/
def generate_loop : Nat → Nat → Game → Exec Game
  | 0, _, g => .ok g
  | n + 1, i, g => do
    let (v, g1) ← random_range 1 4 g
    let g2 ← store i v g1
    generate_loop n (i + 1) g2

/-- The function `generate_game` (lines 220-225), where `now` is the value
returned by `millis()`: seed from the clock, then one `random_range(1, 4)`
per index `0 ≤ i < length`. -/
def generate_game (now : Nat) (length : Int) (g : Game) : Exec Game :=
  generate_loop length.toNat 0 (seed_random now g)

/-- The first `n` cells of the array `gamepattern` (all 20 for `n ≥ 20`). -/
def pattern (g : Game) (n : Nat) : List Int :=
  (List.ofFn g.gamepattern).take n

/-- The symbol that `random_range(1, 4)` derives from an advanced seed. -/
def symbol (s : Nat) : Int := 1 + ((s % 3 : Nat) : Int)

/-! ## Playback (lines 243-247) -/

/-- The loop of lines 243-247 with `n` iterations left and counter `j`:
`play_note(gamepattern[j], gameSpeed)`, then `delay_ms(70)` when `j` is not
the last index and the next symbol is the same. -/
def playback_loop : Nat → Nat → Game → Exec (List Event)
  | 0, _, _ => .ok []
  | n + 1, j, g => do
    let v ← load g j
    let pause ←
      if (j : Int) < g.patternLength - 1 then do
        let w ← load g (j + 1)
        pure (if v = w then [Event.delay_ms 70] else [])
      else pure []
    let rest ← playback_loop n (j + 1) g
    pure (Event.play_note v g.gameSpeed :: pause ++ rest)

/-- The whole playback of lines 243-247. -/
def playback (g : Game) : Exec (List Event) :=
  playback_loop g.patternLength.toNat 0 g

/-! ## Wait for the first press, with replay (lines 250-266) -/

/-- One sample of the inputs seen by an iteration of a polling loop: the
levels of PA2, PA3, PB0 (game buttons; PB0 is active low) and PB1 (replay,
active low), and whether `EXTI1_IRQHandler` ran before the loop condition
of line 253 was read (`irq_cond`) or between that read and the read of
line 260 (`irq_check`). -/
structure Poll where
  irq_cond : Bool
  btn1 : Bool
  btn2 : Bool
  btn3 : Bool
  irq_check : Bool
  replay : Bool
deriving DecidableEq, Repr

/-- The condition of lines 254-256 (and 199-201, 290-292): some game button
is active. -/
def button_active (p : Poll) : Bool := p.btn1 || p.btn2 || !p.btn3

/-- The condition of line 260 for a flag value `flag`: `replay_requested`
is set or the replay button reads low. -/
def replay_observed (flag : Bool) (p : Poll) : Bool := flag || !p.replay

/-- The loop of lines 253-266 entered with `playerStarted = 0`, run on a
record of samples.  With `releasing = false` the next sample feeds one
iteration of the outer loop; with `releasing = true` it feeds the inner
loop of line 261, after which lines 262-264 and, through the `goto`, lines
243-251 run.  The result holds the output events, the state when the loop
is left towards judging, and the unused samples. -/
def wait_loop : Bool → List Poll → Game → Exec (List Event × Game × List Poll)
  | _, [], _ => .blocked
  | false, p :: ps, g =>
    let flag := g.replay_requested || p.irq_cond
    if flag then .ok ([], { g with replay_requested := true }, ps)
    else
      let playerStarted := button_active p
      if replay_observed (flag || p.irq_check) p then
        wait_loop true ps { g with replay_requested := flag || p.irq_check }
      else if playerStarted then .ok ([], g, ps)
      else wait_loop false ps g
  | true, p :: ps, g =>
    if !p.replay then wait_loop true ps g
    else do
      let g1 := { g with replay_requested := false }
      let ev ← playback g1
      let (ev2, g2, rest) ← wait_loop false ps { g1 with replay_requested := false }
      pure (Event.delay_ms 50 :: ev ++ ev2, g2, rest)

/-- Lines 241-266: playback, `replay_requested = 0`, then the wait loop. -/
def replay_pattern (polls : List Poll) (g : Game) : Exec (List Event × Game × List Poll) := do
  let ev ← playback g
  let (ev2, g2, rest) ← wait_loop false polls { g with replay_requested := false }
  pure (ev ++ ev2, g2, rest)

/-! ## Judging (lines 269-294) -/

/-- How a round ends. -/
inductive Verdict
  | success
  | failure
deriving DecidableEq, Repr

/-- What the judging loop did: the verdict, the output events, the indices
`i` at which `userInput != gamepattern[i]` was evaluated (in order), the
state, and the presses not consumed. -/
structure Judged where
  verdict : Verdict
  events : List Event
  compared : List Nat
  game : Game
  rest : List Int

/-- The loop of lines 269-294 with `n` iterations left and counter `i`, on
the sequence of presses registered by the polling loop of lines 271-279.
Each iteration takes the next registered press as `userInput`, plays it at
`buttonSpeed = 25` and compares it with `gamepattern[i]`; a mismatch calls
`game_over` and returns, a match waits for release and 50 ms. -/
def judge_loop : Nat → Nat → List Int → Game → Exec Judged
  | 0, _, presses, g => .ok ⟨.success, [], [], g, presses⟩
  | _ + 1, _, [], _ => .blocked
  | n + 1, i, p :: ps, g => do
    let g1 := { g with userInput := p }
    let v ← load g1 i
    if p ≠ v then
      pure ⟨.failure, [Event.play_note p 25, Event.game_over], [i], g1, ps⟩
    else do
      let r ← judge_loop n (i + 1) ps g1
      pure { r with events := Event.play_note p 25 :: Event.delay_ms 50 :: r.events,
                    compared := i :: r.compared }

/-- The judging loop of lines 269-294 for the current pattern length. -/
def judge (presses : List Int) (g : Game) : Exec Judged :=
  judge_loop g.patternLength.toNat 0 presses g

/-! ## The successful round, the round and the game -/

/-- Lines 296-308: count the round, grow the pattern and play the level-up
jingle on every third round (the win jingle otherwise), then shorten the
note duration while it is above `MIN_LENGTH`. -/
def successful_round (cfg : Config) (g : Game) : List Event × Game :=
  let roundCount := g.roundCount + 1
  let gameSpeed := if g.gameSpeed > cfg.MIN_LENGTH then g.gameSpeed - 10 else g.gameSpeed
  if roundCount.tmod 3 = 0 then
    ([Event.delay_ms 50, Event.play_level_up_note],
     { g with roundCount := roundCount, patternLength := g.patternLength + 1,
              gameSpeed := gameSpeed })
  else
    ([Event.delay_ms 50, Event.play_win_note],
     { g with roundCount := roundCount, gameSpeed := gameSpeed })

/-- Lines 269-308: judging, followed on success by `successful_round`. -/
def finish_round (cfg : Config) (presses : List Int) (g : Game) :
    Exec (Verdict × List Event × Game) := do
  let r ← judge presses g
  match r.verdict with
  | .failure => pure (.failure, r.events, r.game)
  | .success =>
    let (ev, g1) := successful_round cfg r.game
    pure (.success, r.events ++ ev, g1)

/-- The inputs of one round: the clock value read by `generate_game`, the
samples seen by the wait loop, and the presses registered by the judging
loop. -/
structure RoundInput where
  now : Nat
  polls : List Poll
  presses : List Int
deriving DecidableEq, Repr

/-- One iteration of the `while (1)` of `play_game` (lines 238-308). -/
def play_round (cfg : Config) (inp : RoundInput) (g : Game) :
    Exec (Verdict × List Event × Game) := do
  let g1 ← generate_game inp.now g.patternLength g
  let (ev1, g2, _) ← replay_pattern inp.polls g1
  let (verdict, ev2, g3) ← finish_round cfg inp.presses g2
  pure (verdict, Event.delay_ms 500 :: ev1 ++ ev2, g3)

/-- The `while (1)` of `play_game`: rounds are played until one fails. -/
def play_game_loop (cfg : Config) : List RoundInput → Game → Exec (List Event × Game)
  | [], _ => .blocked
  | inp :: inps, g => do
    let (verdict, ev, g1) ← play_round cfg inp g
    match verdict with
    | .failure => pure (ev, g1)
    | .success => do
      let (ev2, g2) ← play_game_loop cfg inps g1
      pure (ev ++ ev2, g2)

/-- The function `play_game` (lines 231-310): the locals are initialised
(`roundCount = 0`, `userInput = 0`, `gameSpeed = LENGTH`), then rounds are
played until one fails. -/
def play_game (cfg : Config) (inps : List RoundInput) (g : Game) : Exec (List Event × Game) :=
  play_game_loop cfg inps { g with roundCount := 0, userInput := 0, gameSpeed := cfg.LENGTH }

/-- The state in which the first round of a game begins: `patternLength = 4`
of line 322 and the initialisation of the locals of `play_game`. -/
def game_start (cfg : Config) (g : Game) : Game :=
  { g with patternLength := 4, roundCount := 0, userInput := 0, gameSpeed := cfg.LENGTH }

/-- The state after every round of `inps` has been played and won, if they
all are. -/
def win_rounds (cfg : Config) : List RoundInput → Game → Option Game
  | [], g => some g
  | inp :: inps, g =>
    match play_round cfg inp g with
    | .ok (.success, _, g1) => win_rounds cfg inps g1
    | _ => none

/-- The state of the globals at reset; the locals hold arbitrary (here
zero) values until `play_game` initialises them. -/
def reset : Game :=
  { gamepattern := fun _ => 0, patternLength := 0, replay_requested := false,
    rng_seed := 1, roundCount := 0, userInput := 0, gameSpeed := 0 }

/-! ## Derived notions and sample inputs -/

/-- A round state whose pattern is `3, 1, 2, 1` (the one generated at clock
7 for length 4), at the initial speed. -/
def sample : Game :=
  { gamepattern := fun k =>
      if k.val = 0 then 3 else if k.val = 1 then 1 else if k.val = 2 then 2
      else if k.val = 3 then 1 else 0,
    patternLength := 4, replay_requested := false, rng_seed := 1486001571,
    roundCount := 0, userInput := 0, gameSpeed := 100 }

/-- The difficulty state of a game: `patternLength`, `roundCount`, `gameSpeed`. -/
def level (g : Game) : Int × Int × Int := (g.patternLength, g.roundCount, g.gameSpeed)

/-- Whether a round ended in the successful-round branch. -/
def won (x : Exec (Verdict × List Event × Game)) : Bool :=
  match x with
  | .ok (.success, _, _) => true
  | _ => false

/-- The state after `n` successful rounds as far as lines 296-308 decide it. -/
def after_successes (cfg : Config) (n : Nat) (g : Game) : Game :=
  (fun s => (successful_round cfg s).2)^[n] g

/-- A sample in which exactly the game button for symbol `b` is active, the
replay button is up and no interrupt has run. -/
def press (b : Int) : Poll :=
  { irq_cond := false, btn1 := b == 1, btn2 := b == 2, btn3 := !(b == 3),
    irq_check := false, replay := true }

/-- The symbols `generate_game` writes at clock value `now`, as a list. -/
def shown (now n : Nat) : List Int :=
  (List.range n).map fun i => symbol (lcg^[i + 1] now)

/-- The inputs of a round generated at clock value `now` in which the
player repeats the `n` symbols shown. -/
def echo_round (now n : Nat) : RoundInput :=
  { now := now, polls := [press ((shown now n).headD 1)], presses := shown now n }

/-- Fifty-one rounds, all won: round `r` (from 0) is generated at clock
value `1000 * (r + 1)` with the pattern length `4 + r / 3` it has then. -/
def marathon : List RoundInput :=
  (List.range 51).map fun r => echo_round (1000 * (r + 1)) (4 + r / 3)

/-- The `play_note` calls of a list of events, as pairs (index, notespeed). -/
def notes : List Event → List (Int × Int)
  | [] => []
  | Event.play_note i s :: es => (i, s) :: notes es
  | _ :: es => notes es

/-- A sample with no button active, the replay button up and no interrupt. -/
def idle : Poll :=
  { irq_cond := false, btn1 := false, btn2 := false, btn3 := true,
    irq_check := false, replay := true }

/-- A sample with the replay button held down and no game button active. -/
def replay_held : Poll :=
  { irq_cond := false, btn1 := false, btn2 := false, btn3 := true,
    irq_check := false, replay := false }

/-! ## Clock and delay (lines 49-56) -/

/-- The handler `SysTick_Handler` (lines 49-51): `sysTickMillis++` in `uint32_t`. -/
def SysTick_Handler (sysTickMillis : Nat) : Nat := (sysTickMillis + 1) % 4294967296

/-- The loop condition of line 55, `(sysTickMillis - start) < ms`, with the
difference formed in `uint32_t`. -/
def delay_waiting (start ms sysTickMillis : Nat) : Bool :=
  decide (toUInt32 ((sysTickMillis : Int) - (start : Int)) < ms)

/-- The loop of line 55 run against a counter that advances by one tick
between two reads of the condition, with at most `ticks` ticks supplied.
The result is the number of ticks waited and the final counter value. -/
def delay_loop (start ms : Nat) : Nat → Nat → Exec (Nat × Nat)
  | 0, t => if delay_waiting start ms t then .blocked else .ok (0, t)
  | ticks + 1, t =>
    if delay_waiting start ms t then
      (delay_loop start ms ticks (SysTick_Handler t)).map fun r => (r.1 + 1, r.2)
    else .ok (0, t)

/-- The function `delay_ms` (lines 53-56): `start` is the counter value on
entry. -/
def delay_ms (ms ticks sysTickMillis : Nat) : Exec (Nat × Nat) :=
  delay_loop sysTickMillis ms ticks sysTickMillis

/-! ## Registration of a press (lines 271-279) and the start of a game -/

/-- One iteration of the polling loop of lines 271-279: the value given to
`userInput` when `buttonPressed` is set, `none` when no branch is taken. -/
def scan_buttons (p : Poll) : Option Int :=
  if p.btn1 then some 1
  else if p.btn2 then some 2
  else if !p.btn3 then some 3
  else none

/-- The polling loop of lines 271-279 on a record of samples: the registered
symbol and the samples left. -/
def await_press : List Poll → Exec (Int × List Poll)
  | [] => .blocked
  | p :: ps =>
    match scan_buttons p with
    | some u => .ok (u, ps)
    | none => await_press ps

/-- The function `wait_for_start` (lines 197-206): poll until a game button
is active, then `delay_ms(300)`. -/
def wait_for_start : List Poll → Exec (List Event × List Poll)
  | [] => .blocked
  | p :: ps => if button_active p then .ok ([Event.delay_ms 300], ps) else wait_for_start ps

/-- One iteration of the `while (1)` of `main` (lines 321-325):
`patternLength = 4`, `wait_for_start()`, `play_game()`. -/
def main_iteration (cfg : Config) (polls : List Poll) (inps : List RoundInput) (g : Game) :
    Exec (List Event × Game) := do
  let g1 := { g with patternLength := 4 }
  let (ev0, _) ← wait_for_start polls
  let (ev, g2) ← play_game cfg inps g1
  pure (ev0 ++ ev, g2)

/-! ## Reference descriptions of the outputs -/

/-- The playback of a pattern as the specification words it: one cue per
symbol in order, and a 70 ms pause after a cue exactly when the next symbol
exists and is the same. -/
def cues (speed : Int) : List Int → List Event
  | [] => []
  | [a] => [Event.play_note a speed]
  | a :: b :: rest =>
    Event.play_note a speed ::
      ((if a = b then [Event.delay_ms 70] else []) ++ cues speed (b :: rest))

/-- The number of adjacent equal pairs of a list. -/
def equal_pairs : List Int → Nat
  | [] => 0
  | [_] => 0
  | a :: b :: rest => (if a = b then 1 else 0) + equal_pairs (b :: rest)

/-- Whether an event is one of the two success jingles. -/
def is_success_cue : Event → Bool
  | Event.play_level_up_note => true
  | Event.play_win_note => true
  | _ => false

/-! ## Basic facts about `Exec` -/

@[simp]
theorem Exec.ok_bind {α β : Type} (a : α) (f : α → Exec β) :
    (Exec.ok a >>= f) = f a := rfl

@[simp]
theorem Exec.fault_bind {α β : Type} (f : α → Exec β) :
    ((Exec.fault : Exec α) >>= f) = Exec.fault := rfl

@[simp]
theorem Exec.blocked_bind {α β : Type} (f : α → Exec β) :
    ((Exec.blocked : Exec α) >>= f) = Exec.blocked := rfl

@[simp]
theorem Exec.pure_eq {α : Type} (a : α) : (pure a : Exec α) = Exec.ok a := rfl

/-! ## The generator -/

theorem random_range_one_four (g : Game) :
    random_range 1 4 g = .ok (symbol (lcg g.rng_seed), { g with rng_seed := lcg g.rng_seed }) := by
  have h3 : lcg g.rng_seed % 3 < 3 := Nat.mod_lt _ (by norm_num)
  have e1 : toUInt32 ((4 : Int) - 1) = 3 := by decide
  have e2 : toUInt32 1 = 1 := by decide
  have e3 : (1 + lcg g.rng_seed % 3) % 4294967296 = 1 + lcg g.rng_seed % 3 :=
    Nat.mod_eq_of_lt (by omega)
  have e4 : toInt32 (1 + lcg g.rng_seed % 3) = symbol (lcg g.rng_seed) := by
    unfold toInt32 symbol
    rw [e3, if_pos (by omega)]
    push_cast
    rfl
  unfold random_range
  simp only [e1, e2, e3, e4]
  rw [if_neg (by norm_num), if_neg (by norm_num)]

theorem symbol_mem (s : Nat) : symbol s = 1 ∨ symbol s = 2 ∨ symbol s = 3 := by
  unfold symbol
  omega

theorem generate_loop_ok (n : Nat) : ∀ (i : Nat) (g : Game), i + n ≤ 20 →
    generate_loop n i g = .ok { g with
      rng_seed := lcg^[n] g.rng_seed,
      gamepattern := fun k =>
        if i ≤ k.val ∧ k.val < i + n then symbol (lcg^[k.val - i + 1] g.rng_seed)
        else g.gamepattern k } := by
  induction n with
  | zero =>
    intro i g _
    cases g
    simp only [generate_loop, Function.iterate_zero, id_eq, Nat.add_zero]
    congr 2
    funext k
    rw [if_neg (by omega)]
  | succ n ih =>
    intro i g h
    have hi : i < 20 := by omega
    simp only [generate_loop, random_range_one_four, Exec.ok_bind, store, hi, dif_pos]
    rw [ih (i + 1) _ (by omega)]
    simp only [Function.iterate_succ_apply]
    congr 2
    funext k
    by_cases h1 : i + 1 ≤ k.val ∧ k.val < i + 1 + n
    · have h2 : i ≤ k.val ∧ k.val < i + (n + 1) := by omega
      have h3 : k.val - i = (k.val - (i + 1)) + 1 := by omega
      rw [if_pos h1, if_pos h2, h3, Function.iterate_succ_apply]
    · rw [if_neg h1]
      by_cases h4 : k = ⟨i, hi⟩
      · have h5 : k.val = i := by rw [h4]
        have h2 : i ≤ k.val ∧ k.val < i + (n + 1) := by omega
        rw [if_pos h4, if_pos h2, h5]
        simp
      · have h5 : k.val ≠ i := fun h => h4 (Fin.ext h)
        have h2 : ¬ (i ≤ k.val ∧ k.val < i + (n + 1)) := by omega
        rw [if_neg h4, if_neg h2]

theorem generate_game_ok (now n : Nat) (g : Game) (h : n ≤ 20) :
    generate_game now (n : Int) g = .ok { g with
      rng_seed := lcg^[n] now,
      gamepattern := fun k =>
        if k.val < n then symbol (lcg^[k.val + 1] now) else g.gamepattern k } := by
  unfold generate_game seed_random
  rw [Int.toNat_ofNat, generate_loop_ok n 0 _ (by omega)]
  simp

theorem toUInt32_natCast (n : Nat) (h : n < 4294967296) : toUInt32 (n : Int) = n := by
  unfold toUInt32
  omega

theorem toInt32_natCast (n : Nat) (h : n < 2147483648) : toInt32 n = (n : Int) := by
  unfold toInt32
  have e : n % 4294967296 = n := Nat.mod_eq_of_lt (by omega)
  rw [e, if_pos h]

theorem ofFn_getElem? (g : Game) (i : Fin 20) :
    (List.ofFn g.gamepattern)[i.val]? = some (g.gamepattern i) := by
  rw [List.getElem?_eq_getElem (by rw [List.length_ofFn]; exact i.isLt), List.getElem_ofFn]

theorem pattern_length (g : Game) (n : Nat) (h : n ≤ 20) : (pattern g n).length = n := by
  simp only [pattern, List.length_take, List.length_ofFn]
  omega

theorem pattern_getElem? (g : Game) (n : Nat) (i : Fin 20) (h : i.val < n) :
    (pattern g n)[i.val]? = some (g.gamepattern i) := by
  simp only [pattern, List.getElem?_take, h, if_true, ofFn_getElem?]

theorem pattern_getElem?_none (g : Game) (n i : Nat) (h : n ≤ i) : (pattern g n)[i]? = none := by
  simp only [pattern, List.getElem?_take]
  rw [if_neg (by omega)]

theorem pattern_congr (g1 g2 : Game) (n : Nat)
    (h : ∀ i : Fin 20, i.val < n → g1.gamepattern i = g2.gamepattern i) :
    pattern g1 n = pattern g2 n := by
  apply List.ext_getElem?
  intro i
  by_cases hn : i < n
  · by_cases hi : i < 20
    · have e1 := pattern_getElem? g1 n ⟨i, hi⟩ hn
      have e2 := pattern_getElem? g2 n ⟨i, hi⟩ hn
      simp only at e1 e2
      rw [e1, e2, h ⟨i, hi⟩ hn]
    · have l1 : (pattern g1 n).length ≤ i := by
        simp only [pattern, List.length_take, List.length_ofFn]; omega
      have l2 : (pattern g2 n).length ≤ i := by
        simp only [pattern, List.length_take, List.length_ofFn]; omega
      rw [List.getElem?_eq_none l1, List.getElem?_eq_none l2]
  · rw [pattern_getElem?_none g1 n i (by omega), pattern_getElem?_none g2 n i (by omega)]

theorem pattern_take (g : Game) (k n : Nat) (h : k ≤ n) : (pattern g n).take k = pattern g k := by
  simp only [pattern, List.take_take, min_eq_left h]

theorem pattern_succ (g : Game) (i : Fin 20) :
    pattern g (i.val + 1) = pattern g i.val ++ [g.gamepattern i] := by
  simp only [pattern, List.take_succ, ofFn_getElem?, Option.toList]

/-! ## The judging loop -/

theorem load_userInput (g : Game) (u : Int) (i : Nat) :
    load { g with userInput := u } i = load g i := rfl

theorem judge_loop_success (n : Nat) : ∀ (i : Nat) (presses : List Int) (g : Game),
    (∀ j, j < n → ∃ p, presses[j]? = some p ∧ load g (i + j) = .ok p) →
    ∃ r, judge_loop n i presses g = .ok r ∧ r.verdict = .success ∧
      r.rest = presses.drop n ∧ r.compared = List.range' i n ∧
      ∃ u, r.game = { g with userInput := u } := by
  induction n with
  | zero =>
    intro i presses g _
    exact ⟨_, rfl, rfl, rfl, rfl, g.userInput, rfl⟩
  | succ n ih =>
    intro i presses g h
    obtain ⟨p, hp, hl⟩ := h 0 (by omega)
    cases presses with
    | nil => simp at hp
    | cons q ps =>
      simp only [List.getElem?_cons_zero, Option.some.injEq] at hp
      subst hp
      rw [Nat.add_zero] at hl
      have h2 : ∀ j, j < n → ∃ p, ps[j]? = some p ∧
          load { g with userInput := q } (i + 1 + j) = .ok p := by
        intro j hj
        obtain ⟨p, hp, hl2⟩ := h (j + 1) (by omega)
        refine ⟨p, by simpa using hp, ?_⟩
        rw [load_userInput, ← hl2]
        congr 1
        omega
      obtain ⟨r, hr, hv, hrest, hc, u, hu⟩ := ih (i + 1) ps _ h2
      refine ⟨{ r with events := Event.play_note q 25 :: Event.delay_ms 50 :: r.events,
                       compared := i :: r.compared }, ?_, ?_⟩
      · simp only [judge_loop, load_userInput, hl, Exec.ok_bind, ne_eq, not_true_eq_false,
          if_false, hr, Exec.pure_eq]
      · refine ⟨hv, by simpa using hrest, ?_, u, ?_⟩
        · simp only [hc, List.range'_succ]
        · simp only [hu]

theorem judge_loop_failure (m : Nat) : ∀ (n i : Nat) (presses : List Int) (g : Game) (p v : Int),
    m < n →
    (∀ j, j < m → ∃ q, presses[j]? = some q ∧ load g (i + j) = .ok q) →
    presses[m]? = some p → load g (i + m) = .ok v → p ≠ v →
    ∃ r, judge_loop n i presses g = .ok r ∧ r.verdict = .failure ∧
      r.rest = presses.drop (m + 1) ∧ r.compared = List.range' i (m + 1) ∧
      r.events.getLast? = some Event.game_over ∧
      r.game = { g with userInput := p } := by
  induction m with
  | zero =>
    intro n i presses g p v hmn _ hp hl hne
    obtain ⟨n, rfl⟩ : ∃ k, n = k + 1 := ⟨n - 1, by omega⟩
    cases presses with
    | nil => simp at hp
    | cons q ps =>
      simp only [List.getElem?_cons_zero, Option.some.injEq] at hp
      subst hp
      rw [Nat.add_zero] at hl
      refine ⟨⟨.failure, [Event.play_note q 25, Event.game_over], [i],
        { g with userInput := q }, ps⟩, ?_, ?_⟩
      · simp only [judge_loop, load_userInput, hl, Exec.ok_bind, ne_eq, hne, not_false_eq_true,
          if_true, Exec.pure_eq]
      · exact ⟨rfl, rfl, rfl, rfl, rfl⟩
  | succ m ih =>
    intro n i presses g p v hmn h hp hl hne
    obtain ⟨n, rfl⟩ : ∃ k, n = k + 1 := ⟨n - 1, by omega⟩
    obtain ⟨q, hq, hlq⟩ := h 0 (by omega)
    cases presses with
    | nil => simp at hq
    | cons q0 ps =>
      simp only [List.getElem?_cons_zero, Option.some.injEq] at hq
      subst hq
      rw [Nat.add_zero] at hlq
      have h2 : ∀ j, j < m → ∃ q, ps[j]? = some q ∧
          load { g with userInput := q0 } (i + 1 + j) = .ok q := by
        intro j hj
        obtain ⟨q, hq, hl2⟩ := h (j + 1) (by omega)
        refine ⟨q, by simpa using hq, ?_⟩
        rw [load_userInput, ← hl2]
        congr 1
        omega
      have hl3 : load { g with userInput := q0 } (i + 1 + m) = .ok v := by
        rw [load_userInput, ← hl]
        congr 1
        omega
      obtain ⟨r, hr, hv, hrest, hc, hlast, hg⟩ :=
        ih n (i + 1) ps _ p v (by omega) h2 (by simpa using hp) hl3 hne
      refine ⟨{ r with events := Event.play_note q0 25 :: Event.delay_ms 50 :: r.events,
                       compared := i :: r.compared }, ?_, ?_⟩
      · simp only [judge_loop, load_userInput, hlq, Exec.ok_bind, ne_eq, not_true_eq_false,
          if_false, hr, Exec.pure_eq]
      · refine ⟨hv, by simpa using hrest, ?_, ?_, ?_⟩
        · simp only [hc, List.range'_succ]
        · cases hev : r.events with
          | nil => rw [hev] at hlast; simp at hlast
          | cons e es =>
            rw [hev] at hlast
            simp only [List.getLast?_cons_cons]
            exact hlast
        · simp only [hg]

theorem judge_loop_success_inv (n : Nat) : ∀ (i : Nat) (presses : List Int) (g : Game) (r : Judged),
    judge_loop n i presses g = .ok r → r.verdict = .success →
    ∀ j, j < n → ∃ p, presses[j]? = some p ∧ load g (i + j) = .ok p := by
  induction n with
  | zero => intro i presses g r _ _ j hj; omega
  | succ n ih =>
    intro i presses g r hr hv j hj
    cases presses with
    | nil => simp [judge_loop] at hr
    | cons q ps =>
      simp only [judge_loop, load_userInput] at hr
      cases hl : load g i with
      | fault => rw [hl] at hr; simp at hr
      | blocked => rw [hl] at hr; simp at hr
      | ok v =>
        rw [hl] at hr
        simp only [Exec.ok_bind] at hr
        by_cases hq : q = v
        · subst hq
          simp only [ne_eq, not_true_eq_false, if_false] at hr
          cases hrec : judge_loop n (i + 1) ps { g with userInput := q } with
          | fault => rw [hrec] at hr; simp at hr
          | blocked => rw [hrec] at hr; simp at hr
          | ok r2 =>
            rw [hrec] at hr
            simp only [Exec.ok_bind, Exec.pure_eq, Exec.ok.injEq] at hr
            have hv2 : r2.verdict = .success := by rw [← hr] at hv; exact hv
            cases j with
            | zero => exact ⟨q, by simp, by simpa using hl⟩
            | succ j =>
              obtain ⟨p, hp, hlp⟩ := ih (i + 1) ps _ r2 hrec hv2 j (by omega)
              refine ⟨p, by simpa using hp, ?_⟩
              rw [load_userInput] at hlp
              rw [← hlp]
              congr 1
              omega
        · simp only [ne_eq, hq, not_false_eq_true, if_true, Exec.pure_eq, Exec.ok.injEq] at hr
          rw [← hr] at hv
          simp at hv

theorem finish_round_of_judge (cfg : Config) (presses : List Int) (g : Game) (r : Judged)
    (h : judge presses g = .ok r) :
    finish_round cfg presses g =
      match r.verdict with
      | .failure => .ok (.failure, r.events, r.game)
      | .success =>
        .ok (.success, r.events ++ (successful_round cfg r.game).1, (successful_round cfg r.game).2) := by
  unfold finish_round
  rw [h]
  simp only [Exec.ok_bind]
  cases r.verdict <;> rfl

theorem successful_round_roundCount (cfg : Config) (g : Game) :
    (successful_round cfg g).2.roundCount = g.roundCount + 1 := by
  by_cases h : (g.roundCount + 1).tmod 3 = 0 <;> simp [successful_round, h]

/-! ## Frame properties of the phases of a round -/

theorem generate_loop_fault (n : Nat) : ∀ (i : Nat) (g : Game), i ≤ 20 → 20 < i + n →
    generate_loop n i g = .fault := by
  induction n with
  | zero => intro i g h1 h2; omega
  | succ n ih =>
    intro i g h1 h2
    by_cases hi : i < 20
    · simp only [generate_loop, random_range_one_four, Exec.ok_bind, store, hi, dif_pos]
      exact ih (i + 1) _ (by omega) (by omega)
    · simp only [generate_loop, random_range_one_four, Exec.ok_bind, store, hi, dif_neg,
        not_false_eq_true, Exec.fault_bind]

theorem generate_game_fault (now : Nat) (length : Int) (g : Game) (h : 20 < length) :
    generate_game now length g = .fault := by
  unfold generate_game
  exact generate_loop_fault _ 0 _ (by omega) (by omega)

theorem generate_game_level (now : Nat) (length : Int) (g g1 : Game)
    (h : generate_game now length g = .ok g1) : level g1 = level g := by
  by_cases hl : length ≤ 20
  · have e : generate_game now length g = generate_game now (length.toNat : Int) g := by
      unfold generate_game
      rw [Int.toNat_ofNat]
    rw [e, generate_game_ok now length.toNat g (by omega)] at h
    simp only [Exec.ok.injEq] at h
    rw [← h]
    rfl
  · rw [generate_game_fault now length g (by omega)] at h
    simp at h

theorem wait_loop_frame (polls : List Poll) : ∀ (b : Bool) (g : Game) (ev : List Event)
    (g2 : Game) (rest : List Poll), wait_loop b polls g = .ok (ev, g2, rest) →
    ∃ f, g2 = { g with replay_requested := f } := by
  induction polls with
  | nil => intro b g ev g2 rest h; cases b <;> simp [wait_loop] at h
  | cons p ps ih =>
    intro b g ev g2 rest h
    cases b with
    | false =>
      simp only [wait_loop] at h
      split at h
      · simp only [Exec.ok.injEq, Prod.mk.injEq] at h
        exact ⟨true, h.2.1.symm⟩
      · split at h
        · obtain ⟨f, hf⟩ := ih true _ ev g2 rest h
          exact ⟨f, hf⟩
        · split at h
          · simp only [Exec.ok.injEq, Prod.mk.injEq] at h
            exact ⟨g.replay_requested, h.2.1.symm⟩
          · exact ih false g ev g2 rest h
    | true =>
      simp only [wait_loop] at h
      split at h
      · exact ih true g ev g2 rest h
      · cases hp : playback { g with replay_requested := false } with
        | fault => rw [hp] at h; simp at h
        | blocked => rw [hp] at h; simp at h
        | ok evp =>
          rw [hp] at h
          simp only [Exec.ok_bind] at h
          cases hw : wait_loop false ps { g with replay_requested := false } with
          | fault => rw [hw] at h; simp at h
          | blocked => rw [hw] at h; simp at h
          | ok res =>
            obtain ⟨ev2, g3, rest3⟩ := res
            rw [hw] at h
            simp only [Exec.ok_bind, Exec.pure_eq, Exec.ok.injEq, Prod.mk.injEq] at h
            obtain ⟨f, hf⟩ := ih false _ ev2 g3 rest3 hw
            exact ⟨f, by rw [← h.2.1, hf]⟩

theorem replay_pattern_frame (polls : List Poll) (g : Game) (ev : List Event) (g2 : Game)
    (rest : List Poll) (h : replay_pattern polls g = .ok (ev, g2, rest)) :
    ∃ f, g2 = { g with replay_requested := f } := by
  unfold replay_pattern at h
  cases hp : playback g with
  | fault => rw [hp] at h; simp at h
  | blocked => rw [hp] at h; simp at h
  | ok evp =>
    rw [hp] at h
    simp only [Exec.ok_bind] at h
    cases hw : wait_loop false polls { g with replay_requested := false } with
    | fault => rw [hw] at h; simp at h
    | blocked => rw [hw] at h; simp at h
    | ok res =>
      obtain ⟨ev2, g3, rest3⟩ := res
      rw [hw] at h
      simp only [Exec.ok_bind, Exec.pure_eq, Exec.ok.injEq, Prod.mk.injEq] at h
      obtain ⟨f, hf⟩ := wait_loop_frame polls false _ ev2 g3 rest3 hw
      exact ⟨f, by rw [← h.2.1, hf]⟩

theorem judge_loop_frame (n : Nat) : ∀ (i : Nat) (presses : List Int) (g : Game) (r : Judged),
    judge_loop n i presses g = .ok r → ∃ u, r.game = { g with userInput := u } := by
  induction n with
  | zero =>
    intro i presses g r h
    simp only [judge_loop, Exec.ok.injEq] at h
    exact ⟨g.userInput, by rw [← h]⟩
  | succ n ih =>
    intro i presses g r h
    cases presses with
    | nil => simp [judge_loop] at h
    | cons q ps =>
      simp only [judge_loop, load_userInput] at h
      cases hl : load g i with
      | fault => rw [hl] at h; simp at h
      | blocked => rw [hl] at h; simp at h
      | ok v =>
        rw [hl] at h
        simp only [Exec.ok_bind] at h
        by_cases hq : q = v
        · subst hq
          simp only [ne_eq, not_true_eq_false, if_false] at h
          cases hrec : judge_loop n (i + 1) ps { g with userInput := q } with
          | fault => rw [hrec] at h; simp at h
          | blocked => rw [hrec] at h; simp at h
          | ok r2 =>
            rw [hrec] at h
            simp only [Exec.ok_bind, Exec.pure_eq, Exec.ok.injEq] at h
            obtain ⟨u, hu⟩ := ih (i + 1) ps _ r2 hrec
            exact ⟨u, by rw [← h]; simp only [hu]⟩
        · simp only [ne_eq, hq, not_false_eq_true, if_true, Exec.pure_eq, Exec.ok.injEq] at h
          exact ⟨q, by rw [← h]⟩

/-- The effect of lines 296-308 on the difficulty state. -/
theorem successful_round_level (cfg : Config) (g : Game) :
    level (successful_round cfg g).2 =
      (if (g.roundCount + 1).tmod 3 = 0 then g.patternLength + 1 else g.patternLength,
       g.roundCount + 1,
       if g.gameSpeed > cfg.MIN_LENGTH then g.gameSpeed - 10 else g.gameSpeed) := by
  by_cases h : (g.roundCount + 1).tmod 3 = 0 <;> simp [successful_round, level, h]

theorem finish_round_level (cfg : Config) (presses : List Int) (g g1 : Game) (ev : List Event)
    (h : finish_round cfg presses g = .ok (.success, ev, g1)) :
    level g1 = level (successful_round cfg g).2 := by
  cases hj : judge presses g with
  | fault => simp [finish_round, hj] at h
  | blocked => simp [finish_round, hj] at h
  | ok r =>
    rw [finish_round_of_judge cfg presses g r hj] at h
    obtain ⟨u, hu⟩ := judge_loop_frame _ 0 presses g r hj
    cases hv : r.verdict with
    | failure => rw [hv] at h; simp at h
    | success =>
      rw [hv] at h
      simp only [Exec.ok.injEq, Prod.mk.injEq, true_and] at h
      rw [← h.2, hu, successful_round_level, successful_round_level]

theorem play_round_level (cfg : Config) (inp : RoundInput) (g g1 : Game) (ev : List Event)
    (h : play_round cfg inp g = .ok (.success, ev, g1)) :
    level g1 = level (successful_round cfg g).2 := by
  unfold play_round at h
  cases hg : generate_game inp.now g.patternLength g with
  | fault => rw [hg] at h; simp at h
  | blocked => rw [hg] at h; simp at h
  | ok ga =>
    rw [hg] at h
    simp only [Exec.ok_bind] at h
    cases hs : replay_pattern inp.polls ga with
    | fault => rw [hs] at h; simp at h
    | blocked => rw [hs] at h; simp at h
    | ok res =>
      obtain ⟨ev1, gb, rest⟩ := res
      rw [hs] at h
      simp only [Exec.ok_bind] at h
      cases hf : finish_round cfg inp.presses gb with
      | fault => rw [hf] at h; simp at h
      | blocked => rw [hf] at h; simp at h
      | ok res2 =>
        obtain ⟨verdict, ev2, gc⟩ := res2
        rw [hf] at h
        simp only [Exec.ok_bind, Exec.pure_eq, Exec.ok.injEq, Prod.mk.injEq] at h
        obtain ⟨hv, -, hgc⟩ := h
        subst hv hgc
        obtain ⟨f, hf2⟩ := replay_pattern_frame inp.polls ga ev1 gb rest hs
        have e1 := generate_game_level _ _ _ _ hg
        have e2 := finish_round_level cfg inp.presses gb gc ev2 hf
        rw [e2, successful_round_level, successful_round_level, hf2]
        simp only [level, Prod.mk.injEq] at e1
        simp only [e1.1, e1.2.1, e1.2.2]

/-! ## Difficulty progression -/

theorem tmod_three (x : Int) (h : 0 ≤ x) : x.tmod 3 = x % 3 :=
  Int.tmod_eq_emod h (by norm_num)

theorem successful_round_count (cfg : Config) (g : Game) (h : 0 ≤ g.roundCount) :
    (successful_round cfg g).2.roundCount = g.roundCount + 1 ∧
    (successful_round cfg g).2.patternLength =
      (if (g.roundCount + 1) % 3 = 0 then g.patternLength + 1 else g.patternLength) ∧
    (successful_round cfg g).2.patternLength - (g.roundCount + 1) / 3 =
      g.patternLength - g.roundCount / 3 := by
  have e := successful_round_level cfg g
  rw [tmod_three _ (by omega)] at e
  simp only [level, Prod.mk.injEq] at e
  refine ⟨e.2.1, e.1, ?_⟩
  rw [e.1]
  split <;> omega

theorem successful_round_speed (g : Game) (h : 0 ≤ g.roundCount)
    (hs : g.gameSpeed = max 50 (100 - 10 * g.roundCount)) :
    (successful_round shipped g).2.gameSpeed = max 50 (100 - 10 * (g.roundCount + 1)) ∧
    (successful_round shipped g).2.gameSpeed =
      (if 50 < g.gameSpeed then g.gameSpeed - 10 else g.gameSpeed) := by
  have e := successful_round_level shipped g
  simp only [level, Prod.mk.injEq] at e
  have e3 : (successful_round shipped g).2.gameSpeed =
      (if 50 < g.gameSpeed then g.gameSpeed - 10 else g.gameSpeed) := e.2.2
  refine ⟨?_, e3⟩
  rw [e3, hs]
  split <;> omega

theorem win_rounds_snoc (cfg : Config) (inp : RoundInput) : ∀ (inps : List RoundInput)
    (g g1 : Game), win_rounds cfg (inps ++ [inp]) g = some g1 ↔
      ∃ g2, win_rounds cfg inps g = some g2 ∧ ∃ ev, play_round cfg inp g2 = .ok (.success, ev, g1) := by
  intro inps
  induction inps with
  | nil =>
    intro g g1
    simp only [List.nil_append, win_rounds]
    constructor
    · intro h
      refine ⟨g, rfl, ?_⟩
      split at h
      · next ev g3 heq =>
        simp only [Option.some.injEq] at h
        subst h
        exact ⟨ev, heq⟩
      · simp at h
    · rintro ⟨g2, hg2, ev, hp⟩
      simp only [Option.some.injEq] at hg2
      subst hg2
      rw [hp]
  | cons a as ih =>
    intro g g1
    simp only [List.cons_append, win_rounds]
    split
    · exact ih _ g1
    · simp

theorem win_rounds_count (cfg : Config) : ∀ (inps : List RoundInput) (g g1 : Game),
    win_rounds cfg inps g = some g1 → 0 ≤ g.roundCount →
    g1.roundCount = g.roundCount + inps.length ∧
    g1.patternLength - g1.roundCount / 3 = g.patternLength - g.roundCount / 3 := by
  intro inps
  induction inps with
  | nil =>
    intro g g1 h _
    simp only [win_rounds, Option.some.injEq] at h
    subst h
    simp
  | cons a as ih =>
    intro g g1 h h0
    simp only [win_rounds] at h
    split at h
    · next ev g2 heq =>
      have e := play_round_level cfg a g g2 ev heq
      obtain ⟨c1, -, c3⟩ := successful_round_count cfg g h0
      simp only [level, Prod.mk.injEq] at e
      obtain ⟨i1, i2⟩ := ih g2 g1 h (by omega)
      rw [e.2.1, c1] at i1
      rw [e.1, e.2.1, c1, c3] at i2
      refine ⟨?_, i2⟩
      rw [i1, List.length_cons]
      push_cast
      ring
    · simp at h

theorem win_rounds_speed : ∀ (inps : List RoundInput) (g g1 : Game),
    win_rounds shipped inps g = some g1 → 0 ≤ g.roundCount →
    g.gameSpeed = max 50 (100 - 10 * g.roundCount) →
    g1.gameSpeed = max 50 (100 - 10 * g1.roundCount) := by
  intro inps
  induction inps with
  | nil =>
    intro g g1 h _ hs
    simp only [win_rounds, Option.some.injEq] at h
    subst h
    exact hs
  | cons a as ih =>
    intro g g1 h h0 hs
    simp only [win_rounds] at h
    split at h
    · next ev g2 heq =>
      have e := play_round_level shipped a g g2 ev heq
      obtain ⟨c1, -, -⟩ := successful_round_count shipped g h0
      obtain ⟨s1, -⟩ := successful_round_speed g h0 hs
      simp only [level, Prod.mk.injEq] at e
      apply ih g2 g1 h
      · rw [e.2.1, c1]; omega
      · rw [e.2.2, e.2.1, c1, s1]
    · simp at h

theorem after_successes_succ (cfg : Config) (n : Nat) (g : Game) :
    after_successes cfg (n + 1) g = (successful_round cfg (after_successes cfg n g)).2 := by
  unfold after_successes
  rw [Function.iterate_succ_apply']

theorem after_successes_count (cfg : Config) (g0 : Game) (n : Nat) :
    (after_successes cfg n (game_start cfg g0)).roundCount = n ∧
    (after_successes cfg n (game_start cfg g0)).patternLength = 4 + (n : Int) / 3 := by
  induction n with
  | zero => exact ⟨rfl, rfl⟩
  | succ n ih =>
    rw [after_successes_succ]
    obtain ⟨c1, -, c3⟩ := successful_round_count cfg (after_successes cfg n (game_start cfg g0))
      (by omega)
    rw [ih.1] at c1 c3
    rw [ih.2] at c3
    refine ⟨by rw [c1]; push_cast; ring, ?_⟩
    push_cast
    omega

theorem after_successes_speed (g0 : Game) (n : Nat) :
    (after_successes shipped n (game_start shipped g0)).gameSpeed = max 50 (100 - 10 * (n : Int)) := by
  induction n with
  | zero => rfl
  | succ n ih =>
    rw [after_successes_succ]
    have hc := (after_successes_count shipped g0 n).1
    obtain ⟨s1, -⟩ := successful_round_speed (after_successes shipped n (game_start shipped g0))
      (by omega) (by rw [ih, hc])
    rw [s1, hc]
    push_cast
    rfl

/-! ## Whole rounds -/

theorem won_iff (x : Exec (Verdict × List Event × Game)) :
    won x = true ↔ ∃ ev g, x = .ok (.success, ev, g) := by
  constructor
  · intro h
    unfold won at h
    split at h
    · next ev g => exact ⟨ev, g, rfl⟩
    · simp at h
  · rintro ⟨ev, g, rfl⟩
    rfl

theorem successful_round_gamepattern (cfg : Config) (g : Game) :
    (successful_round cfg g).2.gamepattern = g.gamepattern := by
  by_cases h : (g.roundCount + 1).tmod 3 = 0 <;> simp [successful_round, h]

theorem play_round_pattern (cfg : Config) (inp : RoundInput) (g g1 : Game) (ev : List Event)
    (h : play_round cfg inp g = .ok (.success, ev, g1)) :
    ∃ ga, generate_game inp.now g.patternLength g = .ok ga ∧ g1.gamepattern = ga.gamepattern := by
  unfold play_round at h
  cases hg : generate_game inp.now g.patternLength g with
  | fault => rw [hg] at h; simp at h
  | blocked => rw [hg] at h; simp at h
  | ok ga =>
    rw [hg] at h
    simp only [Exec.ok_bind] at h
    refine ⟨ga, rfl, ?_⟩
    cases hs : replay_pattern inp.polls ga with
    | fault => rw [hs] at h; simp at h
    | blocked => rw [hs] at h; simp at h
    | ok res =>
      obtain ⟨ev1, gb, rest⟩ := res
      rw [hs] at h
      simp only [Exec.ok_bind] at h
      obtain ⟨f, hf⟩ := replay_pattern_frame inp.polls ga ev1 gb rest hs
      cases hj : judge inp.presses gb with
      | fault => simp [finish_round, hj] at h
      | blocked => simp [finish_round, hj] at h
      | ok r =>
        rw [finish_round_of_judge cfg inp.presses gb r hj] at h
        obtain ⟨u, hu⟩ := judge_loop_frame _ 0 inp.presses gb r hj
        cases hv : r.verdict with
        | failure => rw [hv] at h; simp at h
        | success =>
          rw [hv] at h
          simp only [Exec.ok_bind, Exec.pure_eq, Exec.ok.injEq, Prod.mk.injEq, true_and] at h
          rw [← h.2, successful_round_gamepattern, hu, hf]

set_option maxRecDepth 100000 in
theorem marathon_won : (win_rounds shipped marathon (game_start shipped reset)).isSome = true := by
  decide

/-! ## Playback and the replay path -/

theorem generate_game_toNat (now : Nat) (length : Int) (g : Game) :
    generate_game now length g = generate_game now (length.toNat : Int) g := by
  unfold generate_game
  rw [Int.toNat_ofNat]

theorem notes_append (a b : List Event) : notes (a ++ b) = notes a ++ notes b := by
  induction a with
  | nil => rfl
  | cons e es ih => cases e <;> simp [notes, ih]

theorem notes_pause (c : Prop) [Decidable c] (ev : List Event) :
    notes ((if c then [Event.delay_ms 70] else []) ++ ev) = notes ev := by
  split <;> rfl

theorem playback_loop_flag (n : Nat) : ∀ (j : Nat) (g : Game) (f : Bool),
    playback_loop n j { g with replay_requested := f } = playback_loop n j g := by
  induction n with
  | zero => intro j g f; rfl
  | succ n ih =>
    intro j g f
    simp only [playback_loop, ih]
    rfl

theorem playback_flag (g : Game) (f : Bool) :
    playback { g with replay_requested := f } = playback g :=
  playback_loop_flag _ 0 g f

theorem load_ok (g : Game) (i : Nat) (h : i < 20) : load g i = .ok (g.gamepattern ⟨i, h⟩) := by
  simp only [load, h, dif_pos]

theorem playback_loop_notes (n : Nat) : ∀ (j : Nat) (g : Game), g.patternLength ≤ 20 →
    j + n ≤ 20 → ∃ ev, playback_loop n j g = .ok ev ∧
      notes ev = (((List.ofFn g.gamepattern).drop j).take n).map fun v => (v, g.gameSpeed) := by
  induction n with
  | zero => intro j g _ _; exact ⟨[], rfl, by simp [notes]⟩
  | succ n ih =>
    intro j g hcap hj
    have hj20 : j < 20 := by omega
    obtain ⟨ev, hev, hn⟩ := ih (j + 1) g hcap (by omega)
    have hd : (List.ofFn g.gamepattern).drop j =
        g.gamepattern ⟨j, hj20⟩ :: (List.ofFn g.gamepattern).drop (j + 1) := by
      rw [List.drop_eq_getElem_cons (by rw [List.length_ofFn]; exact hj20), List.getElem_ofFn]
    by_cases hlast : (j : Int) < g.patternLength - 1
    · have hj1 : j + 1 < 20 := by omega
      refine ⟨Event.play_note (g.gamepattern ⟨j, hj20⟩) g.gameSpeed ::
        (if g.gamepattern ⟨j, hj20⟩ = g.gamepattern ⟨j + 1, hj1⟩ then [Event.delay_ms 70] else [])
          ++ ev, ?_, ?_⟩
      · simp only [playback_loop, load_ok g j hj20, load_ok g (j + 1) hj1, Exec.ok_bind, hlast,
          if_true, Exec.pure_eq, hev]
      · rw [hd, List.take_succ_cons, List.map_cons, List.cons_append]
        simp only [notes, notes_pause, hn]
    · refine ⟨Event.play_note (g.gamepattern ⟨j, hj20⟩) g.gameSpeed :: ev, ?_, ?_⟩
      · simp only [playback_loop, load_ok g j hj20, Exec.ok_bind, hlast, if_false, Exec.pure_eq, hev,
          List.cons_append, List.nil_append]
      · rw [hd, List.take_succ_cons, List.map_cons]
        simp only [notes, hn]

theorem playback_notes (g : Game) (h : g.patternLength ≤ 20) :
    ∃ ev, playback g = .ok ev ∧
      notes ev = (pattern g g.patternLength.toNat).map fun v => (v, g.gameSpeed) := by
  obtain ⟨ev, hev, hn⟩ := playback_loop_notes g.patternLength.toNat 0 g h (by omega)
  exact ⟨ev, hev, by rw [hn, List.drop_zero]; rfl⟩

theorem wait_loop_release (held : List Poll) : ∀ (q : Poll) (rest : List Poll) (g : Game)
    (ev : List Event), (∀ x ∈ held, x.replay = false) → q.replay = true →
    playback g = .ok ev →
    wait_loop true (held ++ q :: rest) g =
      (wait_loop false rest { g with replay_requested := false }).map
        fun r => (Event.delay_ms 50 :: ev ++ r.1, r.2) := by
  induction held with
  | nil =>
    intro q rest g ev _ hq hev
    simp only [List.nil_append, wait_loop, hq, Bool.not_true, Bool.false_eq_true, if_false,
      playback_flag, hev, Exec.ok_bind]
    cases wait_loop false rest { g with replay_requested := false } with
    | fault => rfl
    | blocked => rfl
    | ok r => rfl
  | cons x xs ih =>
    intro q rest g ev hheld hq hev
    have hx : x.replay = false := hheld x (List.mem_cons_self _ _)
    simp only [List.cons_append, wait_loop, hx, Bool.not_false, if_true]
    exact ih q rest g ev (fun y hy => hheld y (List.mem_cons_of_mem _ hy)) hq hev

theorem generate_game_spec (now : Nat) (length : Int) (g : Game) (h : length ≤ 20) :
    ∃ g2, generate_game now length g = .ok g2 ∧
      ∀ k : Fin 20, k.val < length.toNat → g2.gamepattern k = symbol (lcg^[k.val + 1] now) := by
  rw [generate_game_toNat, generate_game_ok now _ g (by omega)]
  refine ⟨_, rfl, ?_⟩
  intro k hk
  simp only [hk, if_true]

/-! ## The claims -/

/-- Claim C1: if the presses agree with `gamepattern` at all indices below `i`
and the press at index `i < patternLength` differs from `gamepattern[i]`,
the judging loop returns with a failure whose last output is `game_over`;
it has compared exactly the indices `0, ..., i`, consumed exactly the
first `i + 1` presses, and the round ends as failed. -/
theorem judge_stops_at_first_mismatch (cfg : Config) (g : Game) (presses : List Int)
    (i : Nat) (p v : Int)
    (hi : (i : Int) < g.patternLength)
    (hpre : ∀ j, j < i → ∃ q, presses[j]? = some q ∧ load g j = .ok q)
    (hp : presses[i]? = some p) (hv : load g i = .ok v) (hne : p ≠ v) :
    ∃ r, judge presses g = .ok r ∧ r.verdict = .failure ∧
      r.events.getLast? = some Event.game_over ∧
      r.compared = List.range (i + 1) ∧
      r.rest = presses.drop (i + 1) ∧
      r.game = { g with userInput := p } ∧
      finish_round cfg presses g = .ok (.failure, r.events, r.game) := by
  have h1 : ∀ j, j < i → ∃ q, presses[j]? = some q ∧ load g (0 + j) = .ok q := by
    intro j hj
    rw [Nat.zero_add]
    exact hpre j hj
  have h2 : load g (0 + i) = .ok v := by rw [Nat.zero_add]; exact hv
  obtain ⟨r, hr, hverdict, hrest, hc, hlast, hg⟩ :=
    judge_loop_failure i g.patternLength.toNat 0 presses g p v (by omega) h1 hp h2 hne
  refine ⟨r, hr, hverdict, hlast, ?_, hrest, hg, ?_⟩
  · rw [hc, List.range_eq_range']
  · rw [finish_round_of_judge cfg presses g r hr, hverdict]

theorem judge_stops_at_first_mismatch_witness :
    ((2 : Nat) : Int) < sample.patternLength ∧
    (∀ j, j < 2 → ∃ q, ([3, 1, 1, 1] : List Int)[j]? = some q ∧ load sample j = .ok q) ∧
    ([3, 1, 1, 1] : List Int)[2]? = some 1 ∧ load sample 2 = .ok 2 ∧ (1 : Int) ≠ 2 ∧
    ∃ r, judge [3, 1, 1, 1] sample = .ok r ∧ r.verdict = .failure ∧
      r.events.getLast? = some Event.game_over ∧
      r.compared = List.range (2 + 1) ∧
      r.rest = List.drop (2 + 1) [3, 1, 1, 1] ∧
      r.game = { sample with userInput := 1 } ∧
      finish_round shipped [3, 1, 1, 1] sample = .ok (.failure, r.events, r.game) :=
  have hpre : ∀ j, j < 2 → ∃ q, ([3, 1, 1, 1] : List Int)[j]? = some q ∧ load sample j = .ok q := by
    intro j hj
    interval_cases j
    · exact ⟨3, rfl, rfl⟩
    · exact ⟨1, rfl, rfl⟩
  ⟨by decide, hpre, rfl, rfl, by decide,
    judge_stops_at_first_mismatch shipped sample [3, 1, 1, 1] 2 1 2 (by decide) hpre rfl rfl
      (by decide)⟩

/-- Claim C2: the round reaches the successful-round branch, which increments
`roundCount`, if and only if for every index `j < patternLength` the press
number `j` exists and equals `gamepattern[j]`; in that case judging has
compared the indices `0, ..., patternLength - 1` in that order and consumed
exactly the first `patternLength` presses. -/
theorem round_success_iff (cfg : Config) (g : Game) (presses : List Int) :
    ((∃ ev g1, finish_round cfg presses g = .ok (.success, ev, g1) ∧
        g1.roundCount = g.roundCount + 1) ↔
      ∀ j : Nat, (j : Int) < g.patternLength → ∃ p, presses[j]? = some p ∧ load g j = .ok p) ∧
    ((∀ j : Nat, (j : Int) < g.patternLength → ∃ p, presses[j]? = some p ∧ load g j = .ok p) →
      ∃ r, judge presses g = .ok r ∧ r.verdict = .success ∧
        r.compared = List.range g.patternLength.toNat ∧
        r.rest = presses.drop g.patternLength.toNat) := by
  have key : (∀ j : Nat, (j : Int) < g.patternLength →
        ∃ p, presses[j]? = some p ∧ load g j = .ok p) →
      ∃ r, judge presses g = .ok r ∧ r.verdict = .success ∧
        r.compared = List.range g.patternLength.toNat ∧
        r.rest = presses.drop g.patternLength.toNat ∧ r.game.roundCount = g.roundCount := by
    intro h
    have h1 : ∀ j, j < g.patternLength.toNat →
        ∃ p, presses[j]? = some p ∧ load g (0 + j) = .ok p := by
      intro j hj
      rw [Nat.zero_add]
      exact h j (by omega)
    obtain ⟨r, hr, hv, hrest, hc, u, hu⟩ := judge_loop_success _ 0 presses g h1
    refine ⟨r, hr, hv, ?_, hrest, ?_⟩
    · rw [hc, List.range_eq_range']
    · rw [hu]
  refine ⟨⟨?_, ?_⟩, ?_⟩
  · rintro ⟨ev, g1, hf, -⟩ j hj
    cases hjudge : judge presses g with
    | fault => simp [finish_round, hjudge] at hf
    | blocked => simp [finish_round, hjudge] at hf
    | ok r =>
      rw [finish_round_of_judge cfg presses g r hjudge] at hf
      cases hv : r.verdict with
      | failure => rw [hv] at hf; simp at hf
      | success =>
        obtain ⟨p, hp, hl⟩ := judge_loop_success_inv _ 0 presses g r hjudge hv j (by omega)
        rw [Nat.zero_add] at hl
        exact ⟨p, hp, hl⟩
  · intro h
    obtain ⟨r, hr, hv, -, -, hrc⟩ := key h
    refine ⟨r.events ++ (successful_round cfg r.game).1, (successful_round cfg r.game).2, ?_, ?_⟩
    · rw [finish_round_of_judge cfg presses g r hr, hv]
    · rw [successful_round_roundCount, hrc]
  · intro h
    obtain ⟨r, hr, hv, hc, hrest, -⟩ := key h
    exact ⟨r, hr, hv, hc, hrest⟩

theorem round_success_iff_witness :
    ∃ r, judge [3, 1, 2, 1, 3] sample = .ok r ∧ r.verdict = .success ∧
      r.compared = List.range sample.patternLength.toNat ∧
      r.rest = List.drop sample.patternLength.toNat [3, 1, 2, 1, 3] :=
  (round_success_iff shipped sample [3, 1, 2, 1, 3]).2 (by
    intro j hj
    have hj4 : j < 4 := by
      have : (j : Int) < 4 := hj
      omega
    interval_cases j
    · exact ⟨3, rfl, rfl⟩
    · exact ⟨1, rfl, rfl⟩
    · exact ⟨2, rfl, rfl⟩
    · exact ⟨1, rfl, rfl⟩)

/-- Claim C3: in a game started with `patternLength = 4`, after `n - 1` rounds won
the `n`-th successful round raises `patternLength` by exactly 1 when `n` is
a multiple of 3 and leaves it unchanged otherwise, so that
`patternLength = 4 + n / 3` after `n` successes; the same closed form holds
for every number of applications of the successful-round update. -/
theorem patternLength_after_successes (cfg : Config) (g0 : Game) (inps : List RoundInput)
    (inp : RoundInput) (g g1 : Game) (ev : List Event)
    (h : win_rounds cfg inps (game_start cfg g0) = some g)
    (hr : play_round cfg inp g = .ok (.success, ev, g1)) :
    g.patternLength = 4 + (inps.length : Int) / 3 ∧
    g1.patternLength =
      (if ((inps.length : Int) + 1) % 3 = 0 then g.patternLength + 1 else g.patternLength) ∧
    g1.patternLength = 4 + ((inps.length : Int) + 1) / 3 ∧
    ∀ n : Nat, (after_successes cfg n (game_start cfg g0)).patternLength = 4 + (n : Int) / 3 := by
  obtain ⟨c1, c2⟩ := win_rounds_count cfg inps _ g h (by simp [game_start])
  have e0 : (game_start cfg g0).roundCount = 0 := rfl
  have e4 : (game_start cfg g0).patternLength = 4 := rfl
  rw [e0] at c1 c2
  rw [e4] at c2
  have hrc : g.roundCount = inps.length := by omega
  have e := play_round_level cfg inp g g1 ev hr
  obtain ⟨-, s2, -⟩ := successful_round_count cfg g (by omega)
  simp only [level, Prod.mk.injEq] at e
  rw [hrc] at s2 c2
  have hg : g.patternLength = 4 + (inps.length : Int) / 3 := by omega
  refine ⟨hg, ?_, ?_, fun n => (after_successes_count cfg g0 n).2⟩
  · rw [e.1, s2]
  · rw [e.1, s2, hg]
    split <;> omega

theorem patternLength_after_successes_witness :
    ∃ g g1 ev,
      win_rounds shipped [echo_round 1000 4, echo_round 7000 4] (game_start shipped reset) = some g ∧
      play_round shipped (echo_round 13000 4) g = .ok (.success, ev, g1) ∧
      g.patternLength = 4 + ((2 : Nat) : Int) / 3 ∧
      g1.patternLength =
        (if (((2 : Nat) : Int) + 1) % 3 = 0
          then g.patternLength + 1 else g.patternLength) ∧
      g1.patternLength = 4 + (((2 : Nat) : Int) + 1) / 3 ∧
      ∀ n : Nat, (after_successes shipped n (game_start shipped reset)).patternLength
        = 4 + (n : Int) / 3 := by
  obtain ⟨g1, h1⟩ := Option.isSome_iff_exists.mp
    (by decide : (win_rounds shipped ([echo_round 1000 4, echo_round 7000 4] ++ [echo_round 13000 4])
      (game_start shipped reset)).isSome = true)
  obtain ⟨g, hg, ev, hp⟩ := (win_rounds_snoc shipped _ _ _ _).mp h1
  exact ⟨g, g1, ev, hg, hp, patternLength_after_successes shipped reset _ _ g g1 ev hg hp⟩

/-- Claim C4: with `LENGTH = 100` and `MIN_LENGTH = 50`, after `n` rounds won
`gameSpeed = max 50 (100 - 10 * n)`; a further success lowers it by exactly
10 while it is above 50 and leaves it unchanged once it equals 50; the
closed form also holds for every number of applications of the
successful-round update. -/
theorem gameSpeed_after_successes (g0 : Game) (inps : List RoundInput)
    (inp : RoundInput) (g g1 : Game) (ev : List Event)
    (h : win_rounds shipped inps (game_start shipped g0) = some g)
    (hr : play_round shipped inp g = .ok (.success, ev, g1)) :
    g.gameSpeed = max 50 (100 - 10 * (inps.length : Int)) ∧
    g1.gameSpeed = max 50 (100 - 10 * ((inps.length : Int) + 1)) ∧
    (50 < g.gameSpeed → g1.gameSpeed = g.gameSpeed - 10) ∧
    (g.gameSpeed = 50 → g1.gameSpeed = 50) ∧
    ∀ n : Nat, (after_successes shipped n (game_start shipped g0)).gameSpeed
      = max 50 (100 - 10 * (n : Int)) := by
  obtain ⟨c1, -⟩ := win_rounds_count shipped inps _ g h (by simp [game_start])
  have e0 : (game_start shipped g0).roundCount = 0 := rfl
  rw [e0] at c1
  have hrc : g.roundCount = inps.length := by omega
  have hs := win_rounds_speed inps _ g h (by simp [game_start]) (by rfl)
  have e := play_round_level shipped inp g g1 ev hr
  obtain ⟨s1, s2⟩ := successful_round_speed g (by omega) hs
  simp only [level, Prod.mk.injEq] at e
  rw [hrc] at hs s1
  refine ⟨hs, by rw [e.2.2, s1], ?_, ?_, fun n => after_successes_speed g0 n⟩
  · intro h50
    rw [e.2.2, s2, if_pos h50]
  · intro h50
    rw [e.2.2, s2, if_neg (by omega), h50]

theorem gameSpeed_after_successes_witness :
    ∃ g g1 ev,
      win_rounds shipped [echo_round 1000 4, echo_round 7000 4] (game_start shipped reset) = some g ∧
      play_round shipped (echo_round 13000 4) g = .ok (.success, ev, g1) ∧
      g.gameSpeed = max 50 (100 - 10 * ((2 : Nat) : Int)) ∧
      g1.gameSpeed =
        max 50 (100 - 10 * (((2 : Nat) : Int) + 1)) ∧
      (50 < g.gameSpeed → g1.gameSpeed = g.gameSpeed - 10) ∧
      (g.gameSpeed = 50 → g1.gameSpeed = 50) ∧
      ∀ n : Nat, (after_successes shipped n (game_start shipped reset)).gameSpeed
        = max 50 (100 - 10 * (n : Int)) := by
  obtain ⟨g1, h1⟩ := Option.isSome_iff_exists.mp
    (by decide : (win_rounds shipped ([echo_round 1000 4, echo_round 7000 4] ++ [echo_round 13000 4])
      (game_start shipped reset)).isSome = true)
  obtain ⟨g, hg, ev, hp⟩ := (win_rounds_snoc shipped _ _ _ _).mp h1
  exact ⟨g, g1, ev, hg, hp, gameSpeed_after_successes reset _ _ g g1 ev hg hp⟩

/-- Claim C5, counterexample: in one game, the round generated at clock 1000
shows `3, 2, 2, 2`; it is won, and the next round, generated at clock 7000
with the same length 4, shows `3, 1, 2, 3`: the symbols at indices 1 and 3
were regenerated. -/
theorem later_round_regenerated :
    (win_rounds shipped [echo_round 1000 4] (game_start shipped reset)).map
        (fun g => pattern g 4) = some [3, 2, 2, 2] ∧
    (win_rounds shipped [echo_round 1000 4, echo_round 7000 4] (game_start shipped reset)).map
        (fun g => pattern g 4) = some [3, 1, 2, 3] ∧
    ([3, 1, 2, 3] : List Int) ≠ [3, 2, 2, 2] := by
  decide

/-- Claim C5, amended: when a round has been won and the next round of the game
is generated at the same clock value, generation succeeds (the pattern
fitting the array) and the new pattern keeps the symbols of the earlier
round at the indices below the earlier `patternLength`; after a level-up it
is the earlier pattern followed by exactly one new symbol. -/
theorem same_clock_keeps_pattern (cfg : Config) (a : RoundInput) (g g1 : Game)
    (ev : List Event) (now : Nat)
    (h1 : play_round cfg a g = .ok (.success, ev, g1))
    (hclock : now = a.now)
    (hcap : g1.patternLength ≤ 20) :
    ∃ g2, generate_game now g1.patternLength g1 = .ok g2 ∧
      (pattern g2 g1.patternLength.toNat).take g.patternLength.toNat
        = pattern g1 g.patternLength.toNat ∧
      (g1.patternLength.toNat = g.patternLength.toNat + 1 →
        ∃ x, pattern g2 g1.patternLength.toNat = pattern g1 g.patternLength.toNat ++ [x]) := by
  subst hclock
  obtain ⟨ga, hga, hgp⟩ := play_round_pattern cfg a g g1 ev h1
  have hlev := play_round_level cfg a g g1 ev h1
  rw [successful_round_level] at hlev
  simp only [level, Prod.mk.injEq] at hlev
  have hle : g.patternLength.toNat ≤ g1.patternLength.toNat := by
    rw [hlev.1]
    split <;> omega
  have hg20 : g.patternLength.toNat ≤ 20 := by omega
  rw [generate_game_toNat, generate_game_ok a.now _ g hg20] at hga
  simp only [Exec.ok.injEq] at hga
  have hold : ∀ k : Fin 20, k.val < g.patternLength.toNat →
      g1.gamepattern k = symbol (lcg^[k.val + 1] a.now) := by
    intro k hk
    rw [hgp, ← hga]
    simp only [hk, if_true]
  obtain ⟨g2, hg2, hnew⟩ := generate_game_spec a.now g1.patternLength g1 hcap
  refine ⟨g2, hg2, ?_, ?_⟩
  · rw [pattern_take _ _ _ hle]
    apply pattern_congr
    intro k hk
    rw [hnew k (by omega), hold k hk]
  · intro hup
    have hn : g.patternLength.toNat < 20 := by omega
    refine ⟨g2.gamepattern ⟨g.patternLength.toNat, hn⟩, ?_⟩
    rw [hup]
    have e := pattern_succ g2 ⟨g.patternLength.toNat, hn⟩
    simp only at e
    rw [e]
    congr 1
    apply pattern_congr
    intro k hk
    rw [hnew k (by omega), hold k hk]

theorem same_clock_keeps_pattern_witness :
    ∃ ev g1, play_round shipped (echo_round 1000 4) (game_start shipped reset)
        = .ok (.success, ev, g1) ∧
      1000 = (echo_round 1000 4).now ∧ g1.patternLength ≤ 20 ∧
      ∃ g2, generate_game 1000 g1.patternLength g1 = .ok g2 ∧
        (pattern g2 g1.patternLength.toNat).take (game_start shipped reset).patternLength.toNat
          = pattern g1 (game_start shipped reset).patternLength.toNat ∧
        (g1.patternLength.toNat = (game_start shipped reset).patternLength.toNat + 1 →
          ∃ x, pattern g2 g1.patternLength.toNat
            = pattern g1 (game_start shipped reset).patternLength.toNat ++ [x]) := by
  obtain ⟨ev, g1, h1⟩ := (won_iff _).mp
    (by decide : won (play_round shipped (echo_round 1000 4) (game_start shipped reset)) = true)
  have hlev := play_round_level shipped _ _ g1 ev h1
  rw [successful_round_level] at hlev
  simp only [level, Prod.mk.injEq] at hlev
  have hcap : g1.patternLength ≤ 20 := by
    rw [hlev.1]
    decide
  exact ⟨ev, g1, h1, rfl, hcap,
    same_clock_keeps_pattern shipped (echo_round 1000 4) _ g1 ev 1000 h1 rfl hcap⟩

/-- Claim C6, evaluation at the failing input: the 51 rounds of `marathon` are all
won from a game start; then `roundCount = 51` and `patternLength = 21`,
beyond the 20 cells of `gamepattern`, and whatever its inputs the next
round is undefined behaviour (the write of `gamepattern[20]`). -/
theorem pattern_outgrows_array :
    ∃ g, win_rounds shipped marathon (game_start shipped reset) = some g ∧
      g.roundCount = 51 ∧ g.patternLength = 21 ∧ ¬ g.patternLength ≤ 20 ∧
      ∀ inp, play_round shipped inp g = .fault := by
  obtain ⟨g, hg⟩ := Option.isSome_iff_exists.mp marathon_won
  obtain ⟨c1, c2⟩ := win_rounds_count shipped marathon _ g hg (by decide)
  have e0 : (game_start shipped reset).roundCount = 0 := rfl
  have e4 : (game_start shipped reset).patternLength = 4 := rfl
  have el : marathon.length = 51 := by simp [marathon]
  rw [e0, el] at c1
  rw [e0, e4] at c2
  have hrc : g.roundCount = 51 := by omega
  have hpl : g.patternLength = 21 := by omega
  refine ⟨g, hg, hrc, hpl, by omega, ?_⟩
  intro inp
  unfold play_round
  rw [generate_game_fault inp.now g.patternLength g (by omega)]
  rfl

/-- Claim C8: whatever the seed, `random_range(1, 4)` returns 1, 2 or 3, and for
every clock value and every `length ≤ 20` the call `generate_game(length)`
succeeds and leaves a value in `{1, 2, 3}` in every cell `gamepattern[i]`
with `0 ≤ i < length`. -/
theorem generate_game_symbols (g : Game) (now : Nat) (length : Int) (h : length ≤ 20) :
    (∃ v g1, random_range 1 4 g = .ok (v, g1) ∧ (v = 1 ∨ v = 2 ∨ v = 3)) ∧
    (∃ g2, generate_game now length g = .ok g2 ∧
      ∀ i : Fin 20, (i.val : Int) < length →
        g2.gamepattern i = 1 ∨ g2.gamepattern i = 2 ∨ g2.gamepattern i = 3) := by
  constructor
  · exact ⟨_, _, random_range_one_four g, symbol_mem _⟩
  · have e : generate_game now length g = generate_game now (length.toNat : Int) g := by
      unfold generate_game
      rw [Int.toNat_ofNat]
    rw [e, generate_game_ok now length.toNat g (by omega)]
    refine ⟨_, rfl, ?_⟩
    intro i hi
    have hi2 : i.val < length.toNat := by omega
    simp only [hi2, if_true]
    exact symbol_mem _

theorem generate_game_symbols_witness :
    (4 : Int) ≤ 20 ∧
    ((∃ v g1, random_range 1 4 reset = .ok (v, g1) ∧ (v = 1 ∨ v = 2 ∨ v = 3)) ∧
     (∃ g2, generate_game 7 4 reset = .ok g2 ∧
       ∀ i : Fin 20, (i.val : Int) < 4 →
         g2.gamepattern i = 1 ∨ g2.gamepattern i = 2 ∨ g2.gamepattern i = 3)) :=
  ⟨by decide, generate_game_symbols reset 7 4 (by decide)⟩

/-- Claim C9: for `0 ≤ min < max` (C `int` values, so `max ≤ 2^31 - 1`) the call
`random_range(min, max)` sets `rng_seed` to
`s' = (s * 1103515245 + 12345) mod 2^32` and returns
`min + (s' mod (max - min))`, computed from the advanced seed. -/
theorem random_range_lcg (g : Game) (min max : Int)
    (h0 : 0 ≤ min) (h1 : min < max) (h2 : max ≤ 2147483647) :
    random_range min max g =
      .ok (min + (((g.rng_seed * 1103515245 + 12345) % 4294967296 : Nat) : Int) % (max - min),
           { g with rng_seed := (g.rng_seed * 1103515245 + 12345) % 4294967296 }) := by
  obtain ⟨m, rfl⟩ := Int.eq_ofNat_of_zero_le h0
  obtain ⟨d, hd⟩ := Int.eq_ofNat_of_zero_le (show (0 : Int) ≤ max - (m : Int) by omega)
  have hd0 : 0 < d := by omega
  have hr : lcg g.rng_seed % d < d := Nat.mod_lt _ hd0
  have e1 : toUInt32 (m : Int) = m := toUInt32_natCast m (by omega)
  have e2 : toUInt32 (d : Int) = d := toUInt32_natCast d (by omega)
  have e3 : (m + lcg g.rng_seed % d) % 4294967296 = m + lcg g.rng_seed % d :=
    Nat.mod_eq_of_lt (by omega)
  have e4 : toInt32 (m + lcg g.rng_seed % d) = ((m + lcg g.rng_seed % d : Nat) : Int) :=
    toInt32_natCast _ (by omega)
  unfold random_range
  simp only [hd, e1, e2, e3, e4]
  rw [if_neg (by omega), if_neg (by omega)]
  unfold lcg
  push_cast
  rfl

theorem random_range_lcg_witness :
    (0 : Int) ≤ 1 ∧ (1 : Int) < 4 ∧ (4 : Int) ≤ 2147483647 ∧
    random_range 1 4 reset =
      .ok (1 + (((reset.rng_seed * 1103515245 + 12345) % 4294967296 : Nat) : Int) % (4 - 1),
           { reset with rng_seed := (reset.rng_seed * 1103515245 + 12345) % 4294967296 }) :=
  ⟨by decide, by decide, by decide, random_range_lcg reset 1 4 (by decide) (by decide) (by decide)⟩

/-- Claim C10: for every seed `now` and all lengths `k ≤ n ≤ 20`, generating `n`
symbols and generating `k` symbols from that seed both succeed, whatever the
states they start from, and the first `k` symbols of the longer pattern are
exactly the shorter pattern. -/
theorem generate_game_stable (now k n : Nat) (hk : k ≤ n) (hn : n ≤ 20) (g1 g2 : Game) :
    ∃ gk gn, generate_game now (k : Int) g1 = .ok gk ∧ generate_game now (n : Int) g2 = .ok gn ∧
      (pattern gk k).length = k ∧ (pattern gn n).length = n ∧
      (pattern gn n).take k = pattern gk k := by
  refine ⟨_, _, generate_game_ok now k g1 (by omega), generate_game_ok now n g2 hn,
    pattern_length _ _ (by omega), pattern_length _ _ hn, ?_⟩
  rw [pattern_take _ k n hk]
  apply pattern_congr
  intro i hi
  have hi2 : i.val < n := by omega
  simp only [hi, hi2, if_true]

theorem generate_game_stable_witness :
    4 ≤ 5 ∧ 5 ≤ 20 ∧
    ∃ gk gn, generate_game 7 ((4 : Nat) : Int) reset = .ok gk ∧
      generate_game 7 ((5 : Nat) : Int) reset = .ok gn ∧
      (pattern gk 4).length = 4 ∧ (pattern gn 5).length = 5 ∧
      (pattern gn 5).take 4 = pattern gk 4 :=
  ⟨by decide, by decide, generate_game_stable 7 4 5 (by decide) (by decide) reset reset⟩

/-! ## The tick counter -/

theorem SysTick_Handler_iterate (s k : Nat) :
    SysTick_Handler^[k] s % 4294967296 = (s + k) % 4294967296 := by
  induction k with
  | zero => rfl
  | succ k ih =>
    rw [Function.iterate_succ_apply']
    have e : SysTick_Handler (SysTick_Handler^[k] s) = (SysTick_Handler^[k] s + 1) % 4294967296 :=
      rfl
    rw [e]
    omega

theorem delay_waiting_iff (start ms t k : Nat)
    (ht : t = (start + k) % 4294967296) :
    delay_waiting start ms t = decide (k % 4294967296 < ms) := by
  unfold delay_waiting toUInt32
  have e : (((t : Int) - (start : Int)) % 4294967296).toNat = k % 4294967296 := by
    omega
  rw [e]

theorem delay_loop_exact (start ms : Nat) (hms : ms < 4294967296)
    (n : Nat) : ∀ (ticks k t : Nat), k + n = ms → n ≤ ticks → t = (start + k) % 4294967296 →
    delay_loop start ms ticks t = .ok (n, (start + ms) % 4294967296) := by
  induction n with
  | zero =>
    intro ticks k t hk _ ht
    have hw : delay_waiting start ms t = false := by
      rw [delay_waiting_iff start ms t k ht]
      simp only [decide_eq_false_iff_not]
      omega
    have ht2 : t = (start + ms) % 4294967296 := by omega
    rw [ht2] at hw
    rw [ht2]
    cases ticks with
    | zero => simp only [delay_loop, hw, Bool.false_eq_true, if_false]
    | succ m => simp only [delay_loop, hw, Bool.false_eq_true, if_false]
  | succ n ih =>
    intro ticks k t hk hticks ht
    have hw : delay_waiting start ms t = true := by
      rw [delay_waiting_iff start ms t k ht]
      simp only [decide_eq_true_eq]
      omega
    obtain ⟨ticks, rfl⟩ : ∃ m, ticks = m + 1 := ⟨ticks - 1, by omega⟩
    have hnext := ih ticks (k + 1) (SysTick_Handler t) (by omega) (by omega)
      (by unfold SysTick_Handler; omega)
    simp only [delay_loop, hw, if_true, hnext]
    rfl

theorem delay_loop_short (start ms : Nat) (hms : ms < 4294967296) (ticks : Nat) :
    ∀ (k t : Nat), k + ticks < ms → t = (start + k) % 4294967296 →
    delay_loop start ms ticks t = .blocked := by
  induction ticks with
  | zero =>
    intro k t hk ht
    have hw : delay_waiting start ms t = true := by
      rw [delay_waiting_iff start ms t k ht]
      simp only [decide_eq_true_eq]
      omega
    simp only [delay_loop, hw, if_true]
  | succ n ih =>
    intro k t hk ht
    have hw : delay_waiting start ms t = true := by
      rw [delay_waiting_iff start ms t k ht]
      simp only [decide_eq_true_eq]
      omega
    have hnext := ih (k + 1) (SysTick_Handler t) (by omega) (by unfold SysTick_Handler; omega)
    simp only [delay_loop, hw, if_true, hnext]
    rfl

theorem SysTick_Handler_iterate_eq (s k : Nat) (hs : s < 4294967296) :
    SysTick_Handler^[k] s = (s + k) % 4294967296 := by
  have h := SysTick_Handler_iterate s k
  have hlt : SysTick_Handler^[k] s < 4294967296 := by
    cases k with
    | zero => exact hs
    | succ k =>
      rw [Function.iterate_succ_apply']
      exact Nat.mod_lt _ (by norm_num)
  omega

/-! ## Playback as a list of cues -/

theorem notes_cues (speed : Int) (l : List Int) :
    notes (cues speed l) = l.map fun v => (v, speed) := by
  induction l with
  | nil => rfl
  | cons a t ih =>
    cases t with
    | nil => rfl
    | cons b rest =>
      simp only [cues, notes, notes_pause, ih, List.map_cons]

theorem count_cues (speed : Int) (l : List Int) :
    (cues speed l).count (Event.delay_ms 70) = equal_pairs l := by
  induction l with
  | nil => rfl
  | cons a t ih =>
    cases t with
    | nil => simp [cues, equal_pairs]
    | cons b rest =>
      simp only [cues, equal_pairs]
      rw [List.count_cons_of_ne (by simp), List.count_append, ih]
      split <;> simp

theorem getLast?_cues (speed : Int) (l : List Int) :
    (cues speed l).getLast? = l.getLast?.map fun v => Event.play_note v speed := by
  induction l with
  | nil => rfl
  | cons a t ih =>
    cases t with
    | nil => rfl
    | cons b rest =>
      have hne : cues speed (b :: rest) ≠ [] := by
        cases rest <;> simp [cues]
      simp only [cues, List.getLast?_cons_cons]
      rw [← ih]
      obtain ⟨e, es, hes⟩ := List.exists_cons_of_ne_nil hne
      rw [hes]
      split <;> simp [List.getLast?_cons_cons, List.getLast?_append]

theorem playback_loop_succ (n j : Nat) (g : Game) :
    playback_loop (n + 1) j g = (do
      let v ← load g j
      let pause ←
        if (j : Int) < g.patternLength - 1 then do
          let w ← load g (j + 1)
          pure (if v = w then [Event.delay_ms 70] else [])
        else pure []
      let rest ← playback_loop n (j + 1) g
      pure (Event.play_note v g.gameSpeed :: pause ++ rest)) := rfl

theorem playback_loop_cues (n : Nat) : ∀ (j : Nat) (g : Game), g.patternLength ≤ 20 →
    j + n = g.patternLength.toNat →
    playback_loop n j g =
      .ok (cues g.gameSpeed (((List.ofFn g.gamepattern).drop j).take n)) := by
  induction n with
  | zero => intro j g _ _; rfl
  | succ m ih =>
    intro j g hcap hj
    have hj20 : j < 20 := by omega
    have hd : (List.ofFn g.gamepattern).drop j =
        g.gamepattern ⟨j, hj20⟩ :: (List.ofFn g.gamepattern).drop (j + 1) := by
      rw [List.drop_eq_getElem_cons (by rw [List.length_ofFn]; exact hj20), List.getElem_ofFn]
    have hrec := ih (j + 1) g hcap (by omega)
    cases m with
    | zero =>
      have hlast : ¬ (j : Int) < g.patternLength - 1 := by omega
      simp only [playback_loop, load_ok g j hj20, Exec.ok_bind, hlast, if_false, Exec.pure_eq,
        List.cons_append, List.nil_append, hd, List.take_succ_cons, List.take_zero, cues]
    | succ m =>
      have hlast : (j : Int) < g.patternLength - 1 := by omega
      have hj1 : j + 1 < 20 := by omega
      have hd1 : (List.ofFn g.gamepattern).drop (j + 1) =
          g.gamepattern ⟨j + 1, hj1⟩ :: (List.ofFn g.gamepattern).drop (j + 1 + 1) := by
        rw [List.drop_eq_getElem_cons (by rw [List.length_ofFn]; exact hj1), List.getElem_ofFn]
      rw [hd1, List.take_succ_cons] at hrec
      rw [playback_loop_succ, hrec]
      simp only [load_ok g j hj20, load_ok g (j + 1) hj1, Exec.ok_bind, hlast,
        if_true, Exec.pure_eq, List.cons_append, hd, hd1, List.take_succ_cons, cues]

theorem playback_eq_cues (g : Game) (h : g.patternLength ≤ 20) :
    playback g = .ok (cues g.gameSpeed (pattern g g.patternLength.toNat)) := by
  unfold playback
  rw [playback_loop_cues _ 0 g h (by omega), List.drop_zero]
  rfl

/-! ## Decomposition of a round -/

theorem play_round_phases (cfg : Config) (inp : RoundInput) (g g1 : Game) (v : Verdict)
    (ev : List Event) (h : play_round cfg inp g = .ok (v, ev, g1)) :
    ∃ ga ev1 gb rest r,
      generate_game inp.now g.patternLength g = .ok ga ∧
      replay_pattern inp.polls ga = .ok (ev1, gb, rest) ∧
      judge inp.presses gb = .ok r ∧ r.verdict = v ∧
      ((v = .failure ∧ ev = Event.delay_ms 500 :: ev1 ++ r.events ∧ g1 = r.game) ∨
       (v = .success ∧
          ev = Event.delay_ms 500 :: ev1 ++ (r.events ++ (successful_round cfg r.game).1) ∧
          g1 = (successful_round cfg r.game).2)) := by
  unfold play_round at h
  cases hg : generate_game inp.now g.patternLength g with
  | fault => rw [hg] at h; simp at h
  | blocked => rw [hg] at h; simp at h
  | ok ga =>
    rw [hg] at h
    simp only [Exec.ok_bind] at h
    cases hs : replay_pattern inp.polls ga with
    | fault => rw [hs] at h; simp at h
    | blocked => rw [hs] at h; simp at h
    | ok res =>
      obtain ⟨ev1, gb, rest⟩ := res
      rw [hs] at h
      simp only [Exec.ok_bind] at h
      cases hj : judge inp.presses gb with
      | fault => simp [finish_round, hj] at h
      | blocked => simp [finish_round, hj] at h
      | ok r =>
        rw [finish_round_of_judge cfg inp.presses gb r hj] at h
        refine ⟨ga, ev1, gb, rest, r, rfl, hs, hj, ?_⟩
        cases hv : r.verdict with
        | failure =>
          rw [hv] at h
          simp only [Exec.ok_bind, Exec.pure_eq, Exec.ok.injEq, Prod.mk.injEq] at h
          obtain ⟨h1, h2, h3⟩ := h
          exact ⟨h1, Or.inl ⟨h1.symm, h2.symm, h3.symm⟩⟩
        | success =>
          rw [hv] at h
          simp only [Exec.ok_bind, Exec.pure_eq, Exec.ok.injEq, Prod.mk.injEq] at h
          obtain ⟨h1, h2, h3⟩ := h
          exact ⟨h1, Or.inr ⟨h1.symm, h2.symm, h3.symm⟩⟩

/-! ## The events of the phases of a round -/

theorem generate_game_le (now : Nat) (length : Int) (g ga : Game)
    (h : generate_game now length g = .ok ga) : length ≤ 20 := by
  by_contra hc
  rw [generate_game_fault now length g (by omega)] at h
  simp at h

theorem mem_cues (speed : Int) (l : List Int) (e : Event) (h : e ∈ cues speed l) :
    e = Event.delay_ms 70 ∨ ∃ v ∈ l, e = Event.play_note v speed := by
  induction l with
  | nil => simp [cues] at h
  | cons a t ih =>
    cases t with
    | nil =>
      simp only [cues, List.mem_singleton] at h
      exact Or.inr ⟨a, by simp, h⟩
    | cons b rest =>
      simp only [cues, List.mem_cons, List.mem_append] at h
      rcases h with h | h | h
      · exact Or.inr ⟨a, by simp, h⟩
      · split at h
        · simp only [List.mem_singleton] at h
          exact Or.inl h
        · simp at h
      · rcases ih h with h2 | ⟨v, hv, h2⟩
        · exact Or.inl h2
        · exact Or.inr ⟨v, List.mem_cons_of_mem _ hv, h2⟩

theorem mem_pattern (g : Game) (n : Nat) (v : Int) (h : v ∈ pattern g n) :
    ∃ k : Fin 20, k.val < n ∧ v = g.gamepattern k := by
  obtain ⟨i, hi, hv⟩ := List.getElem_of_mem h
  have hlen : (pattern g n).length = min n 20 := by
    simp only [pattern, List.length_take, List.length_ofFn]
  have hi20 : i < 20 := by omega
  have hin : i < n := by omega
  have e := pattern_getElem? g n ⟨i, hi20⟩ hin
  simp only at e
  rw [List.getElem?_eq_getElem hi, hv] at e
  exact ⟨⟨i, hi20⟩, hin, Option.some.inj e⟩

theorem mem_playback (g : Game) (h : g.patternLength ≤ 20) (ev : List Event)
    (hev : playback g = .ok ev) (e : Event) (he : e ∈ ev) :
    e = Event.delay_ms 70 ∨
      ∃ k : Fin 20, (k.val : Int) < g.patternLength ∧ e = Event.play_note (g.gamepattern k) g.gameSpeed := by
  rw [playback_eq_cues g h] at hev
  simp only [Exec.ok.injEq] at hev
  rw [← hev] at he
  rcases mem_cues _ _ e he with h1 | ⟨v, hv, h1⟩
  · exact Or.inl h1
  · obtain ⟨k, hk, hvk⟩ := mem_pattern g _ v hv
    exact Or.inr ⟨k, by omega, by rw [h1, hvk]⟩

theorem mem_wait_loop (polls : List Poll) : ∀ (b : Bool) (g : Game) (ev : List Event)
    (g2 : Game) (rest : List Poll), wait_loop b polls g = .ok (ev, g2, rest) →
    ∀ e ∈ ev, e = Event.delay_ms 50 ∨ ∃ evp, playback g = .ok evp ∧ e ∈ evp := by
  induction polls with
  | nil => intro b g ev g2 rest h; cases b <;> simp [wait_loop] at h
  | cons p ps ih =>
    intro b g ev g2 rest h
    cases b with
    | false =>
      simp only [wait_loop] at h
      split at h
      · simp only [Exec.ok.injEq, Prod.mk.injEq] at h
        intro e he
        rw [← h.1] at he
        simp at he
      · split at h
        · intro e he
          rcases ih true _ ev g2 rest h e he with h1 | ⟨evp, hp, h1⟩
          · exact Or.inl h1
          · rw [playback_flag] at hp
            exact Or.inr ⟨evp, hp, h1⟩
        · split at h
          · simp only [Exec.ok.injEq, Prod.mk.injEq] at h
            intro e he
            rw [← h.1] at he
            simp at he
          · exact ih false g ev g2 rest h
    | true =>
      simp only [wait_loop] at h
      split at h
      · exact ih true g ev g2 rest h
      · cases hp : playback { g with replay_requested := false } with
        | fault => rw [hp] at h; simp at h
        | blocked => rw [hp] at h; simp at h
        | ok evp =>
          rw [hp] at h
          simp only [Exec.ok_bind] at h
          cases hw : wait_loop false ps { g with replay_requested := false } with
          | fault => rw [hw] at h; simp at h
          | blocked => rw [hw] at h; simp at h
          | ok res =>
            obtain ⟨ev2, g3, rest3⟩ := res
            rw [hw] at h
            simp only [Exec.ok_bind, Exec.pure_eq, Exec.ok.injEq, Prod.mk.injEq] at h
            rw [playback_flag] at hp
            intro e he
            rw [← h.1] at he
            simp only [List.cons_append, List.mem_cons, List.mem_append] at he
            rcases he with he | he | he
            · exact Or.inl he
            · exact Or.inr ⟨evp, hp, he⟩
            · rcases ih false _ ev2 g3 rest3 hw e he with h1 | ⟨evq, hq, h1⟩
              · exact Or.inl h1
              · rw [playback_flag] at hq
                exact Or.inr ⟨evq, hq, h1⟩

theorem mem_replay_pattern (polls : List Poll) (g : Game) (ev : List Event) (g2 : Game)
    (rest : List Poll) (h : replay_pattern polls g = .ok (ev, g2, rest)) :
    ∀ e ∈ ev, e = Event.delay_ms 50 ∨ ∃ evp, playback g = .ok evp ∧ e ∈ evp := by
  unfold replay_pattern at h
  cases hp : playback g with
  | fault => rw [hp] at h; simp at h
  | blocked => rw [hp] at h; simp at h
  | ok evp =>
    rw [hp] at h
    simp only [Exec.ok_bind] at h
    cases hw : wait_loop false polls { g with replay_requested := false } with
    | fault => rw [hw] at h; simp at h
    | blocked => rw [hw] at h; simp at h
    | ok res =>
      obtain ⟨ev2, g3, rest3⟩ := res
      rw [hw] at h
      simp only [Exec.ok_bind, Exec.pure_eq, Exec.ok.injEq, Prod.mk.injEq] at h
      intro e he
      rw [← h.1] at he
      simp only [List.mem_append] at he
      rcases he with he | he
      · exact Or.inr ⟨evp, rfl, he⟩
      · rcases mem_wait_loop polls false _ ev2 g3 rest3 hw e he with h1 | ⟨evq, hq, h1⟩
        · exact Or.inl h1
        · rw [playback_flag, hp] at hq
          simp only [Exec.ok.injEq] at hq
          exact Or.inr ⟨evp, rfl, by rw [hq]; exact h1⟩

theorem mem_judge_loop (n : Nat) : ∀ (i : Nat) (presses : List Int) (g : Game) (r : Judged),
    judge_loop n i presses g = .ok r →
    ∀ e ∈ r.events, e = Event.delay_ms 50 ∨ e = Event.game_over ∨
      ∃ p ∈ presses, e = Event.play_note p 25 := by
  induction n with
  | zero =>
    intro i presses g r h e he
    simp only [judge_loop, Exec.ok.injEq] at h
    rw [← h] at he
    simp at he
  | succ n ih =>
    intro i presses g r h e he
    cases presses with
    | nil => simp [judge_loop] at h
    | cons q ps =>
      simp only [judge_loop, load_userInput] at h
      cases hl : load g i with
      | fault => rw [hl] at h; simp at h
      | blocked => rw [hl] at h; simp at h
      | ok v =>
        rw [hl] at h
        simp only [Exec.ok_bind] at h
        by_cases hq : q = v
        · subst hq
          simp only [ne_eq, not_true_eq_false, if_false] at h
          cases hrec : judge_loop n (i + 1) ps { g with userInput := q } with
          | fault => rw [hrec] at h; simp at h
          | blocked => rw [hrec] at h; simp at h
          | ok r2 =>
            rw [hrec] at h
            simp only [Exec.ok_bind, Exec.pure_eq, Exec.ok.injEq] at h
            rw [← h] at he
            simp only [List.mem_cons] at he
            rcases he with he | he | he
            · exact Or.inr (Or.inr ⟨q, by simp, he⟩)
            · exact Or.inl he
            · rcases ih (i + 1) ps _ r2 hrec e he with h1 | h1 | ⟨p, hp, h1⟩
              · exact Or.inl h1
              · exact Or.inr (Or.inl h1)
              · exact Or.inr (Or.inr ⟨p, List.mem_cons_of_mem _ hp, h1⟩)
        · simp only [ne_eq, hq, not_false_eq_true, if_true, Exec.pure_eq, Exec.ok.injEq] at h
          rw [← h] at he
          simp only [List.mem_cons, List.mem_singleton, List.not_mem_nil, or_false] at he
          rcases he with he | he
          · exact Or.inr (Or.inr ⟨q, by simp, he⟩)
          · exact Or.inr (Or.inl he)

theorem judge_loop_success_events (n : Nat) : ∀ (i : Nat) (presses : List Int) (g : Game)
    (r : Judged), judge_loop n i presses g = .ok r → r.verdict = .success →
    Event.game_over ∉ r.events := by
  induction n with
  | zero =>
    intro i presses g r h _
    simp only [judge_loop, Exec.ok.injEq] at h
    rw [← h]
    simp
  | succ n ih =>
    intro i presses g r h hv
    cases presses with
    | nil => simp [judge_loop] at h
    | cons q ps =>
      simp only [judge_loop, load_userInput] at h
      cases hl : load g i with
      | fault => rw [hl] at h; simp at h
      | blocked => rw [hl] at h; simp at h
      | ok v =>
        rw [hl] at h
        simp only [Exec.ok_bind] at h
        by_cases hq : q = v
        · subst hq
          simp only [ne_eq, not_true_eq_false, if_false] at h
          cases hrec : judge_loop n (i + 1) ps { g with userInput := q } with
          | fault => rw [hrec] at h; simp at h
          | blocked => rw [hrec] at h; simp at h
          | ok r2 =>
            rw [hrec] at h
            simp only [Exec.ok_bind, Exec.pure_eq, Exec.ok.injEq] at h
            have hv2 : r2.verdict = .success := by rw [← h] at hv; exact hv
            have := ih (i + 1) ps _ r2 hrec hv2
            rw [← h]
            simp [this]
        · simp only [ne_eq, hq, not_false_eq_true, if_true, Exec.pure_eq, Exec.ok.injEq] at h
          rw [← h] at hv
          simp at hv

theorem successful_round_rng_seed (cfg : Config) (g : Game) :
    (successful_round cfg g).2.rng_seed = g.rng_seed := by
  by_cases h : (g.roundCount + 1).tmod 3 = 0 <;> simp [successful_round, h]

theorem successful_round_events (cfg : Config) (g : Game) :
    (successful_round cfg g).1 =
      [Event.delay_ms 50,
        if (g.roundCount + 1).tmod 3 = 0 then Event.play_level_up_note
        else Event.play_win_note] := by
  by_cases h : (g.roundCount + 1).tmod 3 = 0 <;> simp [successful_round, h]

theorem tmod_three_eq_zero (x : Int) : x.tmod 3 = 0 ↔ x % 3 = 0 := by
  constructor
  · intro h
    have := Int.dvd_of_tmod_eq_zero h
    omega
  · intro h
    apply Int.tmod_eq_zero_of_dvd
    omega

theorem scan_buttons_range (p : Poll) (u : Int) (h : scan_buttons p = some u) :
    u = 1 ∨ u = 2 ∨ u = 3 := by
  unfold scan_buttons at h
  split at h
  · simp only [Option.some.injEq] at h; omega
  · split at h
    · simp only [Option.some.injEq] at h; omega
    · split at h
      · simp only [Option.some.injEq] at h; omega
      · simp at h

theorem play_round_quiet (inp : RoundInput) (g ga gb : Game)
    (ev1 : List Event) (rest : List Poll) (r : Judged)
    (hg : generate_game inp.now g.patternLength g = .ok ga)
    (hs : replay_pattern inp.polls ga = .ok (ev1, gb, rest))
    (hj : judge inp.presses gb = .ok r) :
    (Event.delay_ms 500 :: ev1 ++ r.events).filter is_success_cue = [] := by
  have hcap : ga.patternLength ≤ 20 := by
    have e := generate_game_level _ _ _ _ hg
    simp only [level, Prod.mk.injEq] at e
    rw [e.1]
    exact generate_game_le _ _ _ _ hg
  rw [List.filter_eq_nil_iff]
  intro e he
  simp only [List.cons_append, List.mem_cons, List.mem_append] at he
  rcases he with he | he | he
  · rw [he]; simp [is_success_cue]
  · rcases mem_replay_pattern _ _ _ _ _ hs e he with h1 | ⟨evp, hp, h1⟩
    · rw [h1]; simp [is_success_cue]
    · rcases mem_playback ga hcap evp hp e h1 with h2 | ⟨k, _, h2⟩
      · rw [h2]; simp [is_success_cue]
      · rw [h2]; simp [is_success_cue]
  · rcases mem_judge_loop _ 0 _ _ r hj e he with h1 | h1 | ⟨p, _, h1⟩
    · rw [h1]; simp [is_success_cue]
    · rw [h1]; simp [is_success_cue]
    · rw [h1]; simp [is_success_cue]

theorem wait_loop_held (held : List Poll) : ∀ (g : Game), (∀ x ∈ held, x.replay = false) →
    wait_loop true held g = .blocked := by
  induction held with
  | nil => intro g _; rfl
  | cons x xs ih =>
    intro g h
    have hx : x.replay = false := h x (List.mem_cons_self _ _)
    simp only [wait_loop, hx, Bool.not_false, if_true]
    exact ih g (fun y hy => h y (List.mem_cons_of_mem _ hy))

/-! ## Independence of a round from all but the difficulty state -/

theorem playback_congr (a1 a2 : Game) (hcap : a1.patternLength ≤ 20)
    (hpl : a1.patternLength = a2.patternLength) (hsp : a1.gameSpeed = a2.gameSpeed)
    (hcells : ∀ k : Fin 20, k.val < a1.patternLength.toNat → a1.gamepattern k = a2.gamepattern k) :
    playback a1 = playback a2 := by
  rw [playback_eq_cues a1 hcap, playback_eq_cues a2 (by omega), ← hpl, ← hsp,
    pattern_congr a1 a2 _ hcells]

theorem wait_loop_congr (polls : List Poll) : ∀ (b : Bool) (a1 a2 : Game),
    playback a1 = playback a2 → a1.replay_requested = a2.replay_requested →
    (wait_loop b polls a1).map (fun r => r.1) = (wait_loop b polls a2).map (fun r => r.1) := by
  induction polls with
  | nil => intro b a1 a2 _ _; cases b <;> rfl
  | cons p ps ih =>
    intro b a1 a2 hp hf
    cases b with
    | false =>
      simp only [wait_loop, ← hf]
      split
      · rfl
      · split
        · exact ih true _ _ (by rw [playback_flag a1, playback_flag a2]; exact hp) rfl
        · split
          · rfl
          · exact ih false a1 a2 hp hf
    | true =>
      simp only [wait_loop]
      split
      · exact ih true a1 a2 hp hf
      · rw [playback_flag a1, playback_flag a2, ← hp]
        cases playback a1 with
        | fault => rfl
        | blocked => rfl
        | ok evp =>
          have hrec := ih false { a1 with replay_requested := false }
            { a2 with replay_requested := false }
            (by rw [playback_flag a1, playback_flag a2]; exact hp) rfl
          simp only [Exec.ok_bind]
          cases h1 : wait_loop false ps { a1 with replay_requested := false } with
          | fault =>
            rw [h1] at hrec
            cases h2 : wait_loop false ps { a2 with replay_requested := false } with
            | fault => rfl
            | blocked => rw [h2] at hrec; simp [Exec.map] at hrec
            | ok r2 => rw [h2] at hrec; simp [Exec.map] at hrec
          | blocked =>
            rw [h1] at hrec
            cases h2 : wait_loop false ps { a2 with replay_requested := false } with
            | fault => rw [h2] at hrec; simp [Exec.map] at hrec
            | blocked => rfl
            | ok r2 => rw [h2] at hrec; simp [Exec.map] at hrec
          | ok r1 =>
            rw [h1] at hrec
            cases h2 : wait_loop false ps { a2 with replay_requested := false } with
            | fault => rw [h2] at hrec; simp [Exec.map] at hrec
            | blocked => rw [h2] at hrec; simp [Exec.map] at hrec
            | ok r2 =>
              rw [h2] at hrec
              simp only [Exec.map, Exec.ok.injEq] at hrec
              simp only [Exec.ok_bind, Exec.pure_eq, Exec.map, hrec]

theorem replay_pattern_congr (polls : List Poll) (a1 a2 : Game)
    (hp : playback a1 = playback a2) :
    (replay_pattern polls a1).map (fun r => r.1) = (replay_pattern polls a2).map (fun r => r.1) := by
  unfold replay_pattern
  rw [← hp]
  cases playback a1 with
  | fault => rfl
  | blocked => rfl
  | ok evp =>
    have hrec := wait_loop_congr polls false { a1 with replay_requested := false }
      { a2 with replay_requested := false }
      (by rw [playback_flag a1, playback_flag a2]; exact hp) rfl
    simp only [Exec.ok_bind]
    cases h1 : wait_loop false polls { a1 with replay_requested := false } with
    | fault =>
      rw [h1] at hrec
      cases h2 : wait_loop false polls { a2 with replay_requested := false } with
      | fault => rfl
      | blocked => rw [h2] at hrec; simp [Exec.map] at hrec
      | ok r2 => rw [h2] at hrec; simp [Exec.map] at hrec
    | blocked =>
      rw [h1] at hrec
      cases h2 : wait_loop false polls { a2 with replay_requested := false } with
      | fault => rw [h2] at hrec; simp [Exec.map] at hrec
      | blocked => rfl
      | ok r2 => rw [h2] at hrec; simp [Exec.map] at hrec
    | ok r1 =>
      rw [h1] at hrec
      cases h2 : wait_loop false polls { a2 with replay_requested := false } with
      | fault => rw [h2] at hrec; simp [Exec.map] at hrec
      | blocked => rw [h2] at hrec; simp [Exec.map] at hrec
      | ok r2 =>
        rw [h2] at hrec
        simp only [Exec.map, Exec.ok.injEq] at hrec
        simp only [Exec.ok_bind, Exec.pure_eq, Exec.map, hrec]

theorem judge_loop_congr (n : Nat) : ∀ (i : Nat) (presses : List Int) (a1 a2 : Game),
    (∀ k, i ≤ k → k < i + n → load a1 k = load a2 k) →
    (judge_loop n i presses a1).map (fun r => (r.verdict, r.events)) =
      (judge_loop n i presses a2).map (fun r => (r.verdict, r.events)) := by
  induction n with
  | zero => intro i presses a1 a2 _; rfl
  | succ n ih =>
    intro i presses a1 a2 hl
    cases presses with
    | nil => rfl
    | cons q ps =>
      simp only [judge_loop, load_userInput, ← hl i (by omega) (by omega)]
      cases load a1 i with
      | fault => rfl
      | blocked => rfl
      | ok v =>
        simp only [Exec.ok_bind]
        by_cases hq : q = v
        · subst hq
          simp only [ne_eq, not_true_eq_false, if_false]
          have hrec := ih (i + 1) ps { a1 with userInput := q } { a2 with userInput := q }
            (fun k h1 h2 => by
              rw [load_userInput, load_userInput]
              exact hl k (by omega) (by omega))
          cases h1 : judge_loop n (i + 1) ps { a1 with userInput := q } with
          | fault =>
            rw [h1] at hrec
            cases h2 : judge_loop n (i + 1) ps { a2 with userInput := q } with
            | fault => rfl
            | blocked => rw [h2] at hrec; simp [Exec.map] at hrec
            | ok r2 => rw [h2] at hrec; simp [Exec.map] at hrec
          | blocked =>
            rw [h1] at hrec
            cases h2 : judge_loop n (i + 1) ps { a2 with userInput := q } with
            | fault => rw [h2] at hrec; simp [Exec.map] at hrec
            | blocked => rfl
            | ok r2 => rw [h2] at hrec; simp [Exec.map] at hrec
          | ok r1 =>
            rw [h1] at hrec
            cases h2 : judge_loop n (i + 1) ps { a2 with userInput := q } with
            | fault => rw [h2] at hrec; simp [Exec.map] at hrec
            | blocked => rw [h2] at hrec; simp [Exec.map] at hrec
            | ok r2 =>
              rw [h2] at hrec
              simp only [Exec.map, Exec.ok.injEq, Prod.mk.injEq] at hrec
              simp only [Exec.ok_bind, Exec.pure_eq, Exec.map, hrec.1, hrec.2]
        · simp only [ne_eq, hq, not_false_eq_true, if_true, Exec.pure_eq, Exec.map]

theorem Exec.map_eq_cases {α β γ : Type} (x1 : Exec α) (x2 : Exec β) (f1 : α → γ) (f2 : β → γ)
    (h : x1.map f1 = x2.map f2) :
    (x1 = .fault ∧ x2 = .fault) ∨ (x1 = .blocked ∧ x2 = .blocked) ∨
      ∃ a b, x1 = .ok a ∧ x2 = .ok b ∧ f1 a = f2 b := by
  cases x1 <;> cases x2 <;> simp [Exec.map] at h ⊢
  exact h

theorem finish_round_congr (cfg : Config) (presses : List Int) (b1 b2 : Game)
    (hlevel : level b1 = level b2)
    (hloads : ∀ k, k < b1.patternLength.toNat → load b1 k = load b2 k) :
    (finish_round cfg presses b1).map (fun r => (r.1, r.2.1, level r.2.2)) =
      (finish_round cfg presses b2).map (fun r => (r.1, r.2.1, level r.2.2)) := by
  have hl := hlevel
  simp only [level, Prod.mk.injEq] at hl
  have hj := judge_loop_congr b1.patternLength.toNat 0 presses b1 b2
    (fun k _ h2 => hloads k (by omega))
  have hj2 : (judge presses b1).map (fun r => (r.verdict, r.events)) =
      (judge presses b2).map (fun r => (r.verdict, r.events)) := by
    unfold judge
    rw [← hl.1]
    exact hj
  rcases Exec.map_eq_cases _ _ _ _ hj2 with ⟨h1, h2⟩ | ⟨h1, h2⟩ | ⟨r1, r2, h1, h2, heq⟩
  · simp only [finish_round, h1, h2, Exec.fault_bind]
  · simp only [finish_round, h1, h2, Exec.blocked_bind]
  · simp only [Prod.mk.injEq] at heq
    obtain ⟨u1, hu1⟩ := judge_loop_frame _ 0 presses b1 r1 h1
    obtain ⟨u2, hu2⟩ := judge_loop_frame _ 0 presses b2 r2 h2
    have hlr : level r1.game = level r2.game := by
      rw [hu1, hu2]
      exact hlevel
    have hrc : r1.game.roundCount = r2.game.roundCount := by
      simp only [level, Prod.mk.injEq] at hlr
      exact hlr.2.1
    rw [finish_round_of_judge cfg presses b1 r1 h1, finish_round_of_judge cfg presses b2 r2 h2,
      ← heq.1, ← heq.2]
    cases r1.verdict with
    | failure => simp only [Exec.map, hlr]
    | success =>
      have hlv : level (successful_round cfg r1.game).2 = level (successful_round cfg r2.game).2 := by
        rw [successful_round_level, successful_round_level]
        simp only [level, Prod.mk.injEq] at hlr
        rw [hlr.1, hlr.2.1, hlr.2.2]
      simp only [Exec.map, successful_round_events, hrc, hlv]

theorem play_round_congr (cfg : Config) (inp : RoundInput) (g1 g2 : Game)
    (h : level g1 = level g2) :
    (play_round cfg inp g1).map (fun r => (r.1, r.2.1, level r.2.2)) =
      (play_round cfg inp g2).map (fun r => (r.1, r.2.1, level r.2.2)) := by
  have hl := h
  simp only [level, Prod.mk.injEq] at hl
  by_cases hcap : g1.patternLength ≤ 20
  · obtain ⟨a1, ha1, hs1⟩ := generate_game_spec inp.now g1.patternLength g1 hcap
    obtain ⟨a2, ha2, hs2⟩ := generate_game_spec inp.now g2.patternLength g2 (by omega)
    have hla1 := generate_game_level _ _ _ _ ha1
    have hla2 := generate_game_level _ _ _ _ ha2
    have hla : level a1 = level a2 := by rw [hla1, hla2, h]
    have hf1 := hla1
    have hf2 := hla
    simp only [level, Prod.mk.injEq] at hf1 hf2
    have hcells : ∀ k : Fin 20, k.val < a1.patternLength.toNat →
        a1.gamepattern k = a2.gamepattern k := by
      intro k hk
      rw [hs1 k (by omega), hs2 k (by omega)]
    have hp : playback a1 = playback a2 :=
      playback_congr a1 a2 (by omega) hf2.1 hf2.2.2 hcells
    have hrp := replay_pattern_congr inp.polls a1 a2 hp
    unfold play_round
    rw [ha1, ha2]
    simp only [Exec.ok_bind]
    rcases Exec.map_eq_cases _ _ _ _ hrp with ⟨h1, h2⟩ | ⟨h1, h2⟩ | ⟨x1, x2, h1, h2, heq⟩
    · rw [h1, h2]
    · rw [h1, h2]
    · obtain ⟨ev1, b1, rest1⟩ := x1
      obtain ⟨ev2, b2, rest2⟩ := x2
      simp only at heq
      subst heq
      obtain ⟨f1, hb1⟩ := replay_pattern_frame _ _ _ _ _ h1
      obtain ⟨f2, hb2⟩ := replay_pattern_frame _ _ _ _ _ h2
      have hlb : level b1 = level b2 := by
        rw [hb1, hb2]
        exact hla
      have hloads : ∀ k, k < b1.patternLength.toNat → load b1 k = load b2 k := by
        intro k hk
        have hk1 : k < a1.patternLength.toNat := by rw [hb1] at hk; exact hk
        have hk20 : k < 20 := by omega
        rw [load_ok b1 k hk20, load_ok b2 k hk20, hb1, hb2]
        exact congrArg Exec.ok (hcells ⟨k, hk20⟩ hk1)
      have hfin := finish_round_congr cfg inp.presses b1 b2 hlb hloads
      rw [h1, h2]
      simp only [Exec.ok_bind]
      rcases Exec.map_eq_cases _ _ _ _ hfin with ⟨k1, k2⟩ | ⟨k1, k2⟩ | ⟨y1, y2, k1, k2, heq2⟩
      · rw [k1, k2]
      · rw [k1, k2]
      · simp only [Prod.mk.injEq] at heq2
        rw [k1, k2]
        simp only [Exec.ok_bind, Exec.pure_eq, Exec.map, heq2.1, heq2.2.1, heq2.2.2]
  · unfold play_round
    rw [generate_game_fault inp.now _ g1 (by omega), generate_game_fault inp.now _ g2 (by omega)]

theorem play_game_loop_congr (cfg : Config) (inps : List RoundInput) : ∀ (g1 g2 : Game),
    level g1 = level g2 →
    (play_game_loop cfg inps g1).map (fun r => (r.1, level r.2)) =
      (play_game_loop cfg inps g2).map (fun r => (r.1, level r.2)) := by
  induction inps with
  | nil => intro g1 g2 _; rfl
  | cons inp rest ih =>
    intro g1 g2 h
    have hr := play_round_congr cfg inp g1 g2 h
    simp only [play_game_loop]
    rcases Exec.map_eq_cases _ _ _ _ hr with ⟨h1, h2⟩ | ⟨h1, h2⟩ | ⟨x1, x2, h1, h2, heq⟩
    · rw [h1, h2]
    · rw [h1, h2]
    · obtain ⟨v1, ev1, n1⟩ := x1
      obtain ⟨v2, ev2, n2⟩ := x2
      simp only [Prod.mk.injEq] at heq
      obtain ⟨hv, hev, hlv⟩ := heq
      subst hv hev
      rw [h1, h2]
      simp only [Exec.ok_bind]
      cases v1 with
      | failure => simp only [Exec.pure_eq, Exec.map, hlv]
      | success =>
        have hrec := ih n1 n2 hlv
        rcases Exec.map_eq_cases _ _ _ _ hrec with ⟨k1, k2⟩ | ⟨k1, k2⟩ | ⟨y1, y2, k1, k2, heq2⟩
        · rw [k1, k2]
        · rw [k1, k2]
        · simp only [Prod.mk.injEq] at heq2
          rw [k1, k2]
          simp only [Exec.ok_bind, Exec.pure_eq, Exec.map, heq2.1, heq2.2]

theorem main_iteration_eq (cfg : Config) (polls : List Poll) (inps : List RoundInput) (g : Game) :
    main_iteration cfg polls inps g =
      (wait_for_start polls).bind fun r =>
        (play_game_loop cfg inps (game_start cfg g)).map fun x => (r.1 ++ x.1, x.2) := by
  unfold main_iteration play_game
  cases wait_for_start polls with
  | fault => rfl
  | blocked => rfl
  | ok r =>
    show (play_game_loop cfg inps (game_start cfg g) >>= fun x => pure (r.1 ++ x.1, x.2)) = _
    cases play_game_loop cfg inps (game_start cfg g) <;> rfl

/-! ## The claims on determinism, restart, inputs, outputs and timing -/

/-- Claim C11: the result of `generate_game(length)` as far as the pattern
`gamepattern[0..length-1]` and the final `rng_seed` go is the same for any
two prior states (seed and array contents) run at the same clock value; for
`length ≤ 20` both runs succeed, with equal patterns and the final seed
`lcg^length(now)`. -/
theorem generate_game_deterministic (now : Nat) (length : Int) (g1 g2 : Game) :
    (generate_game now length g1).map (fun g => (pattern g length.toNat, g.rng_seed)) =
      (generate_game now length g2).map (fun g => (pattern g length.toNat, g.rng_seed)) ∧
    (length ≤ 20 → ∃ ga gb,
      generate_game now length g1 = .ok ga ∧ generate_game now length g2 = .ok gb ∧
      pattern ga length.toNat = pattern gb length.toNat ∧
      ga.rng_seed = gb.rng_seed ∧ ga.rng_seed = lcg^[length.toNat] now) := by
  by_cases h : length ≤ 20
  · have e1 := generate_game_ok now length.toNat g1 (by omega)
    have e2 := generate_game_ok now length.toNat g2 (by omega)
    rw [← generate_game_toNat] at e1 e2
    have hp : pattern { g1 with
          rng_seed := lcg^[length.toNat] now,
          gamepattern := fun k =>
            if k.val < length.toNat then symbol (lcg^[k.val + 1] now) else g1.gamepattern k }
          length.toNat =
        pattern { g2 with
          rng_seed := lcg^[length.toNat] now,
          gamepattern := fun k =>
            if k.val < length.toNat then symbol (lcg^[k.val + 1] now) else g2.gamepattern k }
          length.toNat := by
      apply pattern_congr
      intro i hi
      simp only [hi, if_true]
    refine ⟨?_, fun _ => ⟨_, _, e1, e2, hp, rfl, rfl⟩⟩
    rw [e1, e2]
    simp only [Exec.map, hp]
  · rw [generate_game_fault now length g1 (by omega), generate_game_fault now length g2 (by omega)]
    exact ⟨rfl, fun h2 => absurd h2 h⟩

theorem generate_game_deterministic_witness :
    ∃ ga gb,
      generate_game 1000 4 reset = .ok ga ∧ generate_game 1000 4 sample = .ok gb ∧
      pattern ga (4 : Int).toNat = pattern gb (4 : Int).toNat ∧
      ga.rng_seed = gb.rng_seed ∧ ga.rng_seed = lcg^[(4 : Int).toNat] 1000 :=
  (generate_game_deterministic 1000 4 reset sample).2 (by decide)

/-- Claim C12: whatever state a game ended in, the next iteration of `main`
waits for a button and then runs the rounds of the new game from the state
with `patternLength = 4`, `gameSpeed = LENGTH` (100 as shipped) and
`roundCount = 0`; the outputs and the difficulty state of the new game are
the same for any two states the previous game may have ended in. -/
theorem next_game_starts_fresh (cfg : Config) (polls : List Poll) (inps : List RoundInput)
    (g : Game) :
    main_iteration cfg polls inps g =
      ((wait_for_start polls).bind fun r =>
        (play_game_loop cfg inps (game_start cfg g)).map fun x => (r.1 ++ x.1, x.2)) ∧
    (game_start cfg g).patternLength = 4 ∧
    (game_start cfg g).gameSpeed = cfg.LENGTH ∧
    (game_start cfg g).roundCount = 0 ∧
    shipped.LENGTH = 100 ∧
    ∀ g2 : Game,
      (main_iteration cfg polls inps g).map (fun r => (r.1, level r.2)) =
        (main_iteration cfg polls inps g2).map (fun r => (r.1, level r.2)) := by
  refine ⟨main_iteration_eq cfg polls inps g, rfl, rfl, rfl, rfl, ?_⟩
  intro g2
  rw [main_iteration_eq, main_iteration_eq]
  have hc := play_game_loop_congr cfg inps (game_start cfg g) (game_start cfg g2) rfl
  cases wait_for_start polls with
  | fault => rfl
  | blocked => rfl
  | ok r =>
    simp only [Exec.bind]
    rcases Exec.map_eq_cases _ _ _ _ hc with ⟨k1, k2⟩ | ⟨k1, k2⟩ | ⟨y1, y2, k1, k2, heq⟩
    · rw [k1, k2]
    · rw [k1, k2]
    · simp only [Prod.mk.injEq] at heq
      rw [k1, k2]
      simp only [Exec.map, heq.1, heq.2]

/-- Claim C13, counterexample: with buttons 1 and 2 both active at a polling
instant the judging loop registers a press, with symbol 1. -/
theorem two_buttons_register :
    button_active { irq_cond := false, btn1 := true, btn2 := true, btn3 := true,
                    irq_check := false, replay := true } = true ∧
    scan_buttons { irq_cond := false, btn1 := true, btn2 := true, btn3 := true,
                   irq_check := false, replay := true } = some 1 ∧
    await_press [{ irq_cond := false, btn1 := true, btn2 := true, btn3 := true,
                   irq_check := false, replay := true }] = .ok (1, []) := by
  decide

/-- Claim C13, amended: at a polling instant of the judging loop a press is
registered exactly when at least one game button is active, and the
registered symbol is the number of the lowest-numbered active button
(button 1 before button 2 before button 3); in particular, with exactly one
button active it is that button's number. -/
theorem scan_buttons_priority (p : Poll) (ps : List Poll) :
    (scan_buttons p = none ↔ button_active p = false) ∧
    (p.btn1 = true → scan_buttons p = some 1) ∧
    (p.btn1 = false → p.btn2 = true → scan_buttons p = some 2) ∧
    (p.btn1 = false → p.btn2 = false → p.btn3 = false → scan_buttons p = some 3) ∧
    (∀ u, scan_buttons p = some u → await_press (p :: ps) = .ok (u, ps)) ∧
    (scan_buttons p = none → await_press (p :: ps) = await_press ps) := by
  obtain ⟨c, b1, b2, b3, k, r⟩ := p
  refine ⟨?_, ?_, ?_, ?_, ?_, ?_⟩
  · cases b1 <;> cases b2 <;> cases b3 <;> simp [scan_buttons, button_active]
  · intro h
    simp only at h
    simp [scan_buttons, h]
  · intro h1 h2
    simp only at h1 h2
    simp [scan_buttons, h1, h2]
  · intro h1 h2 h3
    simp only at h1 h2 h3
    simp [scan_buttons, h1, h2, h3]
  · intro u hu
    simp only [await_press, hu]
  · intro hu
    simp only [await_press, hu]

theorem scan_buttons_priority_witness :
    scan_buttons (press 2) = some 2 ∧ await_press [idle, press 2, idle] = .ok (2, [idle]) :=
  ⟨(scan_buttons_priority (press 2) []).2.2.1 (by decide) (by decide), by decide⟩

/-- Claim C14, evaluation at the failing input: configured with `LENGTH = 55`
and `MIN_LENGTH = 50`, one round won takes `gameSpeed` from 55 to 45, below
`MIN_LENGTH`; a successful round never raises `gameSpeed`, and from a value
of at least `MIN_LENGTH` it stays above `MIN_LENGTH - 10`. -/
theorem gameSpeed_below_floor :
    (50 : Int) ≤ 55 ∧
    (win_rounds ⟨55, 50⟩ [echo_round 1000 4] (game_start ⟨55, 50⟩ reset)).map
      (fun g => g.gameSpeed) = some 45 ∧
    (45 : Int) < 50 ∧
    (∀ (cfg : Config) (g : Game), (successful_round cfg g).2.gameSpeed ≤ g.gameSpeed) ∧
    (∀ (cfg : Config) (g : Game), cfg.MIN_LENGTH ≤ g.gameSpeed →
      cfg.MIN_LENGTH - 10 < (successful_round cfg g).2.gameSpeed) := by
  refine ⟨by decide, by decide, by decide, ?_, ?_⟩
  · intro cfg g
    have e := successful_round_level cfg g
    simp only [level, Prod.mk.injEq] at e
    rw [e.2.2]
    split <;> omega
  · intro cfg g h
    have e := successful_round_level cfg g
    simp only [level, Prod.mk.injEq] at e
    rw [e.2.2]
    split <;> omega

/-- Claim C15: for a pattern that lies in the array (`patternLength ≤ 20`),
playback emits exactly the cues of `gamepattern[0..n-1]` in index order at
`gameSpeed`, with a 70 ms pause after a cue exactly when the next symbol
exists and is equal: `n` notes, as many pauses as adjacent equal pairs, a
note as last output, and no dependence on any cell at an index `≥ n`. -/
theorem playback_cues (g : Game) (h : g.patternLength ≤ 20) :
    playback g = .ok (cues g.gameSpeed (pattern g g.patternLength.toNat)) ∧
    (pattern g g.patternLength.toNat).length = g.patternLength.toNat ∧
    notes (cues g.gameSpeed (pattern g g.patternLength.toNat)) =
      (pattern g g.patternLength.toNat).map (fun v => (v, g.gameSpeed)) ∧
    (cues g.gameSpeed (pattern g g.patternLength.toNat)).count (Event.delay_ms 70) =
      equal_pairs (pattern g g.patternLength.toNat) ∧
    (cues g.gameSpeed (pattern g g.patternLength.toNat)).getLast? =
      (pattern g g.patternLength.toNat).getLast?.map (fun v => Event.play_note v g.gameSpeed) ∧
    (∀ g2 : Game, g2.patternLength = g.patternLength → g2.gameSpeed = g.gameSpeed →
      (∀ k : Fin 20, k.val < g.patternLength.toNat → g2.gamepattern k = g.gamepattern k) →
      playback g2 = playback g) := by
  refine ⟨playback_eq_cues g h, pattern_length g _ (by omega), notes_cues _ _, count_cues _ _,
    getLast?_cues _ _, ?_⟩
  intro g2 hpl hsp hcells
  rw [playback_eq_cues g h, playback_eq_cues g2 (by omega), hpl, hsp,
    pattern_congr g2 g _ hcells]

theorem playback_cues_witness :
    sample.patternLength ≤ 20 ∧
    playback sample = .ok (cues sample.gameSpeed (pattern sample sample.patternLength.toNat)) ∧
    (pattern sample sample.patternLength.toNat).length = sample.patternLength.toNat ∧
    notes (cues sample.gameSpeed (pattern sample sample.patternLength.toNat)) =
      (pattern sample sample.patternLength.toNat).map (fun v => (v, sample.gameSpeed)) ∧
    (cues sample.gameSpeed (pattern sample sample.patternLength.toNat)).count (Event.delay_ms 70) =
      equal_pairs (pattern sample sample.patternLength.toNat) ∧
    (cues sample.gameSpeed (pattern sample sample.patternLength.toNat)).getLast? =
      (pattern sample sample.patternLength.toNat).getLast?.map
        (fun v => Event.play_note v sample.gameSpeed) ∧
    (∀ g2 : Game, g2.patternLength = sample.patternLength → g2.gameSpeed = sample.gameSpeed →
      (∀ k : Fin 20, k.val < sample.patternLength.toNat →
        g2.gamepattern k = sample.gamepattern k) →
      playback g2 = playback sample) :=
  ⟨by decide, playback_cues sample (by decide)⟩

/-- Claim C16: a round that succeeds plays exactly one success jingle, as its
last output: `play_level_up_note` when the updated `roundCount` is a
multiple of 3, which are the rounds on which `patternLength` grows by one,
and `play_win_note` otherwise, `patternLength` then being unchanged. -/
theorem one_success_cue (cfg : Config) (inp : RoundInput) (g g1 : Game) (ev : List Event)
    (h : play_round cfg inp g = .ok (.success, ev, g1)) :
    g1.roundCount = g.roundCount + 1 ∧
    ev.filter is_success_cue =
      [if g1.roundCount % 3 = 0 then Event.play_level_up_note else Event.play_win_note] ∧
    ev.getLast? =
      some (if g1.roundCount % 3 = 0 then Event.play_level_up_note else Event.play_win_note) ∧
    (g1.roundCount % 3 = 0 → g1.patternLength = g.patternLength + 1) ∧
    (g1.roundCount % 3 ≠ 0 → g1.patternLength = g.patternLength) := by
  have hlev := play_round_level cfg inp g g1 ev h
  rw [successful_round_level] at hlev
  simp only [level, Prod.mk.injEq] at hlev
  obtain ⟨hpl, hrc, -⟩ := hlev
  obtain ⟨ga, ev1, gb, rest, r, hg, hs, hj, hv, hcase⟩ := play_round_phases cfg inp g g1 _ ev h
  rcases hcase with ⟨hf, -, -⟩ | ⟨-, hev, hg1⟩
  · simp at hf
  · have hq := play_round_quiet inp g ga gb ev1 rest r hg hs hj
    have hrc1 : g1.roundCount = r.game.roundCount + 1 := by
      rw [hg1, successful_round_roundCount]
    have hcue : (successful_round cfg r.game).1 =
        [Event.delay_ms 50,
          if g1.roundCount % 3 = 0 then Event.play_level_up_note else Event.play_win_note] := by
      rw [successful_round_events, hrc1]
      by_cases h3 : (r.game.roundCount + 1) % 3 = 0
      · rw [if_pos ((tmod_three_eq_zero _).mpr h3), if_pos h3]
      · rw [if_neg (fun hc => h3 ((tmod_three_eq_zero _).mp hc)), if_neg h3]
    refine ⟨hrc, ?_, ?_, ?_, ?_⟩
    · rw [hev, ← List.append_assoc, List.filter_append, hcue]
      have hq2 : List.filter is_success_cue (Event.delay_ms 500 :: ev1 ++ r.events) = [] := hq
      rw [hq2]
      split <;> simp [List.filter, is_success_cue]
    · rw [hev, hcue]
      have e : ∀ a b : Event, Event.delay_ms 500 :: ev1 ++ (r.events ++ [a, b]) =
          (Event.delay_ms 500 :: ev1 ++ r.events ++ [a]) ++ [b] := by
        intro a b
        simp
      rw [e, List.getLast?_concat]
    · intro h3
      rw [hpl, if_pos ((tmod_three_eq_zero _).mpr (by rw [← hrc]; exact h3))]
    · intro h3
      rw [hpl, if_neg (fun hc => h3 (by rw [hrc]; exact (tmod_three_eq_zero _).mp hc))]

theorem one_success_cue_witness :
    ∃ ev g1, play_round shipped (echo_round 1000 4) (game_start shipped reset)
        = .ok (.success, ev, g1) ∧
      g1.roundCount = (game_start shipped reset).roundCount + 1 ∧
      ev.filter is_success_cue =
        [if g1.roundCount % 3 = 0 then Event.play_level_up_note else Event.play_win_note] ∧
      ev.getLast? =
        some (if g1.roundCount % 3 = 0 then Event.play_level_up_note else Event.play_win_note) ∧
      (g1.roundCount % 3 = 0 → g1.patternLength = (game_start shipped reset).patternLength + 1) ∧
      (g1.roundCount % 3 ≠ 0 → g1.patternLength = (game_start shipped reset).patternLength) := by
  obtain ⟨ev, g1, h1⟩ := (won_iff _).mp
    (by decide : won (play_round shipped (echo_round 1000 4) (game_start shipped reset)) = true)
  exact ⟨ev, g1, h1, one_success_cue shipped _ _ g1 ev h1⟩

/-- Claim C17, counterexample: in one game, after the round generated at clock
1000 is won and a second round is generated at clock 7000, `rng_seed` is
the fourth LCG iterate of 7000, not the continuation (the eighth iterate) of
the first round's seed: the second round called `seed_random` again. -/
theorem second_round_reseeds :
    (win_rounds shipped [echo_round 1000 4] (game_start shipped reset)).map
        (fun g => g.rng_seed) = some (lcg^[4] 1000) ∧
    (win_rounds shipped [echo_round 1000 4, echo_round 7000 4] (game_start shipped reset)).map
        (fun g => g.rng_seed) = some (lcg^[4] 7000) ∧
    lcg^[4] 7000 = 1476891908 ∧ lcg^[4] (lcg^[4] 1000) = 3352127488 := by
  decide

/-- Claim C17, amended: every round of a game re-seeds the generator from the
clock value it reads; at the end of a round `rng_seed` is that clock value
advanced by exactly one LCG step per symbol of the round's pattern,
whatever the seed was before the round. -/
theorem every_round_reseeds (cfg : Config) (inp : RoundInput) (g g1 : Game) (v : Verdict)
    (ev : List Event) (h : play_round cfg inp g = .ok (v, ev, g1)) :
    g1.rng_seed = lcg^[g.patternLength.toNat] inp.now := by
  obtain ⟨ga, ev1, gb, rest, r, hg, hs, hj, hv, hcase⟩ := play_round_phases cfg inp g g1 v ev h
  have hle := generate_game_le _ _ _ _ hg
  rw [generate_game_toNat, generate_game_ok inp.now _ g (by omega)] at hg
  simp only [Exec.ok.injEq] at hg
  obtain ⟨f, hf⟩ := replay_pattern_frame _ _ _ _ _ hs
  obtain ⟨u, hu⟩ := judge_loop_frame _ 0 _ _ r hj
  have hr : r.game.rng_seed = lcg^[g.patternLength.toNat] inp.now := by
    rw [hu, hf, ← hg]
  rcases hcase with ⟨-, -, hg1⟩ | ⟨-, -, hg1⟩
  · rw [hg1, hr]
  · rw [hg1, successful_round_rng_seed, hr]

theorem every_round_reseeds_witness :
    ∃ ev g1, play_round shipped (echo_round 7000 4) (game_start shipped sample)
        = .ok (.success, ev, g1) ∧
      g1.rng_seed = lcg^[(game_start shipped sample).patternLength.toNat] (echo_round 7000 4).now := by
  obtain ⟨ev, g1, h1⟩ := (won_iff _).mp
    (by decide : won (play_round shipped (echo_round 7000 4) (game_start shipped sample)) = true)
  exact ⟨ev, g1, h1, every_round_reseeds shipped _ _ g1 _ ev h1⟩

/-- Claim C18: provided `patternLength ≤ 20`, the pattern generated for a round
is played back with indices in `{1, 2, 3}` only, and in a round that runs to
its end on presses registered by the polling loop of lines 271-279 every
`play_note` call (playback, replays and input feedback) has its index in
`{1, 2, 3}`, inside the 3-element array `notes`. -/
theorem play_note_index_in_range (cfg : Config) (inp : RoundInput) (g : Game)
    (hcap : g.patternLength ≤ 20)
    (hreg : ∀ u ∈ inp.presses, ∃ p, scan_buttons p = some u) :
    (∃ ga evp, generate_game inp.now g.patternLength g = .ok ga ∧ playback ga = .ok evp ∧
      ∀ i s, Event.play_note i s ∈ evp → i = 1 ∨ i = 2 ∨ i = 3) ∧
    (∀ v ev g1, play_round cfg inp g = .ok (v, ev, g1) →
      ∀ i s, Event.play_note i s ∈ ev → i = 1 ∨ i = 2 ∨ i = 3) := by
  obtain ⟨ga, hga, hsym⟩ := generate_game_spec inp.now g.patternLength g hcap
  have hlev := generate_game_level _ _ _ _ hga
  simp only [level, Prod.mk.injEq] at hlev
  have hcapa : ga.patternLength ≤ 20 := by rw [hlev.1]; exact hcap
  have hplay : ∀ evp, playback ga = .ok evp →
      ∀ i s, Event.play_note i s ∈ evp → i = 1 ∨ i = 2 ∨ i = 3 := by
    intro evp hp i s hmem
    rcases mem_playback ga hcapa evp hp _ hmem with h1 | ⟨k, hk, h1⟩
    · simp at h1
    · simp only [Event.play_note.injEq] at h1
      rw [h1.1, hsym k (by omega)]
      exact symbol_mem _
  constructor
  · obtain ⟨evp, hp, -⟩ := playback_notes ga hcapa
    exact ⟨ga, evp, hga, hp, hplay evp hp⟩
  · intro v ev g1 h i s hmem
    obtain ⟨ga2, ev1, gb, rest, r, hg, hs, hj, hv, hcase⟩ :=
      play_round_phases cfg inp g g1 v ev h
    rw [hga] at hg
    simp only [Exec.ok.injEq] at hg
    subst hg
    have hpre : ∀ e ∈ Event.delay_ms 500 :: ev1 ++ r.events,
        ∀ i s, e = Event.play_note i s → i = 1 ∨ i = 2 ∨ i = 3 := by
      intro e he i s hi
      simp only [List.cons_append, List.mem_cons, List.mem_append] at he
      rcases he with he | he | he
      · rw [he] at hi; simp at hi
      · rcases mem_replay_pattern _ _ _ _ _ hs e he with h1 | ⟨evp, hp, h1⟩
        · rw [h1] at hi; simp at hi
        · rw [hi] at h1
          exact hplay evp hp i s h1
      · rcases mem_judge_loop _ 0 _ _ r hj e he with h1 | h1 | ⟨p, hp, h1⟩
        · rw [h1] at hi; simp at hi
        · rw [h1] at hi; simp at hi
        · rw [h1] at hi
          simp only [Event.play_note.injEq] at hi
          obtain ⟨q, hq⟩ := hreg p hp
          rw [← hi.1]
          exact scan_buttons_range q p hq
    rcases hcase with ⟨-, hev, -⟩ | ⟨-, hev, -⟩
    · rw [hev] at hmem
      exact hpre _ hmem i s rfl
    · rw [hev, ← List.append_assoc, List.mem_append] at hmem
      rcases hmem with hmem | hmem
      · exact hpre _ hmem i s rfl
      · rw [successful_round_events] at hmem
        simp only [List.mem_cons, List.mem_singleton, List.not_mem_nil, or_false] at hmem
        rcases hmem with hmem | hmem
        · simp at hmem
        · split at hmem <;> simp at hmem

theorem play_note_index_in_range_witness :
    (game_start shipped reset).patternLength ≤ 20 ∧
    (∀ u ∈ (echo_round 1000 4).presses, ∃ p, scan_buttons p = some u) ∧
    (∃ ga evp, generate_game (echo_round 1000 4).now (game_start shipped reset).patternLength
        (game_start shipped reset) = .ok ga ∧ playback ga = .ok evp ∧
      ∀ i s, Event.play_note i s ∈ evp → i = 1 ∨ i = 2 ∨ i = 3) ∧
    (∀ v ev g1, play_round shipped (echo_round 1000 4) (game_start shipped reset)
        = .ok (v, ev, g1) →
      ∀ i s, Event.play_note i s ∈ ev → i = 1 ∨ i = 2 ∨ i = 3) :=
  have hreg : ∀ u ∈ (echo_round 1000 4).presses, ∃ p, scan_buttons p = some u := by
    intro u hu
    have h4 : (echo_round 1000 4).presses = [3, 2, 2, 2] := by decide
    rw [h4] at hu
    simp only [List.mem_cons, List.mem_singleton, List.not_mem_nil, or_false] at hu
    rcases hu with rfl | rfl | rfl | rfl
    · exact ⟨press 3, by decide⟩
    · exact ⟨press 2, by decide⟩
    · exact ⟨press 2, by decide⟩
    · exact ⟨press 2, by decide⟩
  ⟨by decide, hreg, play_note_index_in_range shipped (echo_round 1000 4) _ (by decide) hreg⟩

/-- Claim C19: in an iteration of the wait loop in which a game button is
active and line 260 observes a replay, the replay branch is taken: after
the release of the replay button the pattern is played back once more and
the loop starts afresh (`playerStarted = 0`) on the samples that follow, so
that if the record ends there the loop is still waiting and judging has not
begun; the same sample without the replay would have ended the wait. -/
theorem replay_wins_over_press (g : Game) (p : Poll) (held : List Poll) (q : Poll)
    (rest : List Poll)
    (hcap : g.patternLength ≤ 20)
    (hcond : (g.replay_requested || p.irq_cond) = false)
    (hbtn : button_active p = true)
    (hobs : replay_observed (g.replay_requested || p.irq_cond || p.irq_check) p = true)
    (hheld : ∀ x ∈ held, x.replay = false) (hq : q.replay = true) :
    ∃ ev, playback g = .ok ev ∧
      wait_loop false (p :: (held ++ q :: rest)) g =
        (wait_loop false rest { g with replay_requested := false }).map
          (fun r => (Event.delay_ms 50 :: ev ++ r.1, r.2)) ∧
      wait_loop false (p :: (held ++ [q])) g = .blocked ∧
      wait_loop false (p :: held) g = .blocked ∧
      wait_loop false ({ p with irq_check := false, replay := true } :: rest) g
        = .ok ([], g, rest) := by
  obtain ⟨ev, hev, -⟩ := playback_notes g hcap
  have key : ∀ tail, wait_loop false (p :: (held ++ q :: tail)) g =
      (wait_loop false tail { g with replay_requested := false }).map
        (fun r => (Event.delay_ms 50 :: ev ++ r.1, r.2)) := by
    intro tail
    have hrel := wait_loop_release held q tail
      { g with replay_requested := g.replay_requested || p.irq_cond || p.irq_check } ev hheld hq
      (by rw [playback_flag]; exact hev)
    simp only [wait_loop, hcond, Bool.false_eq_true, if_false]
    simp only [hcond] at hobs hrel
    simp only [hobs, if_true]
    exact hrel
  refine ⟨ev, hev, key rest, ?_, ?_, ?_⟩
  · rw [key []]
    rfl
  · simp only [wait_loop, hcond, Bool.false_eq_true, if_false]
    simp only [hcond] at hobs
    simp only [hobs, if_true]
    exact wait_loop_held held _ hheld
  · have hb : button_active { p with irq_check := false, replay := true } = true := hbtn
    simp only [wait_loop, hcond, replay_observed, hb, Bool.or_self, Bool.not_true,
      Bool.false_eq_true, if_false, if_true]

theorem replay_wins_over_press_witness :
    sample.patternLength ≤ 20 ∧
    (sample.replay_requested || ({ press 3 with replay := false } : Poll).irq_cond) = false ∧
    button_active { press 3 with replay := false } = true ∧
    replay_observed (sample.replay_requested || ({ press 3 with replay := false } : Poll).irq_cond
      || ({ press 3 with replay := false } : Poll).irq_check) { press 3 with replay := false }
      = true ∧
    (∀ x ∈ [replay_held], x.replay = false) ∧ idle.replay = true ∧
    ∃ ev, playback sample = .ok ev ∧
      wait_loop false ({ press 3 with replay := false } :: ([replay_held] ++ idle :: [press 3]))
          sample =
        (wait_loop false [press 3] { sample with replay_requested := false }).map
          (fun r => (Event.delay_ms 50 :: ev ++ r.1, r.2)) ∧
      wait_loop false ({ press 3 with replay := false } :: ([replay_held] ++ [idle])) sample
        = .blocked ∧
      wait_loop false ({ press 3 with replay := false } :: [replay_held]) sample = .blocked ∧
      wait_loop false
          ({ ({ press 3 with replay := false } : Poll) with irq_check := false, replay := true }
            :: [press 3]) sample
        = .ok ([], sample, [press 3]) :=
  ⟨by decide, rfl, rfl, rfl, by decide, rfl,
    replay_wins_over_press sample { press 3 with replay := false } [replay_held] idle [press 3]
      (by decide) rfl rfl rfl (by decide) rfl⟩

/-- Claim C20: from any 32-bit start value and for any `ms < 2^32`, with the
counter advancing by one modulo `2^32` per tick, the loop condition of
`delay_ms` holds after every number `k < ms` of ticks and fails after
exactly `ms` ticks, wrap-around included; given at least `ms` ticks the
function returns after exactly `ms` of them, with the counter at
`(start + ms) mod 2^32`, and with fewer it is still waiting. -/
theorem delay_ms_exact (start ms : Nat) (hs : start < 4294967296) (hms : ms < 4294967296) :
    (∀ k, k < ms → delay_waiting start ms (SysTick_Handler^[k] start) = true) ∧
    delay_waiting start ms (SysTick_Handler^[ms] start) = false ∧
    (∀ ticks, ms ≤ ticks →
      delay_ms ms ticks start = .ok (ms, (start + ms) % 4294967296)) ∧
    (∀ ticks, ticks < ms → delay_ms ms ticks start = .blocked) := by
  refine ⟨?_, ?_, ?_, ?_⟩
  · intro k hk
    rw [delay_waiting_iff start ms _ k (SysTick_Handler_iterate_eq start k hs)]
    simp only [decide_eq_true_eq]
    omega
  · rw [delay_waiting_iff start ms _ ms (SysTick_Handler_iterate_eq start ms hs)]
    simp only [decide_eq_false_iff_not]
    omega
  · intro ticks ht
    exact delay_loop_exact start ms hms ms ticks 0 start (by omega) ht (by omega)
  · intro ticks ht
    exact delay_loop_short start ms hms ticks 0 start (by omega) (by omega)

theorem delay_ms_exact_witness :
    4294967294 < 4294967296 ∧ 5 < 4294967296 ∧
    (∀ k, k < 5 → delay_waiting 4294967294 5 (SysTick_Handler^[k] 4294967294) = true) ∧
    delay_waiting 4294967294 5 (SysTick_Handler^[5] 4294967294) = false ∧
    (∀ ticks, 5 ≤ ticks →
      delay_ms 5 ticks 4294967294 = .ok (5, (4294967294 + 5) % 4294967296)) ∧
    (∀ ticks, ticks < 5 → delay_ms 5 ticks 4294967294 = .blocked) :=
  ⟨by decide, by decide, delay_ms_exact 4294967294 5 (by decide) (by decide)⟩

end HakoGame
